import Mathlib

/-!
Shallow embedding of the chess rules engine in `src/src/chess.rs`.

Conventions of the embedding:
* Rust `i8` coordinates are modeled as `Int`; a coordinate is a pair
  `(rank, file)` accessed with `.1` (Rust `.0`) and `.2` (Rust `.1`).
* The 8×8 array `squares` is modeled as a total function
  `Int × Int → Option Piece`.  Rust indexing with an out-of-range
  coordinate panics; boards built by the engine's own operations never
  store anything out of range, so on every non-panicking execution the
  function model agrees with the array exactly.
* Rust `HashSet<(i8,i8)>` occupancy sets are modeled as duplicate-free
  `List (Int × Int)`; only membership is ever observed by the code, so
  the (unspecified) hash iteration order is modeled by list order.
* A Rust `panic!`/`unwrap` failure is modeled by `Option`: functions
  that can panic return `none` in exactly the situations where the Rust
  code would abort.
-/

inductive Side where
  | White : Side
  | Black : Side
deriving DecidableEq, Repr

def Side.other : Side → Side
  | Side.White => Side.Black
  | Side.Black => Side.White

inductive PieceType where
  | Pawn : PieceType
  | Knight : PieceType
  | Bishop : PieceType
  | Rook : PieceType
  | Queen : PieceType
  | King : PieceType
deriving DecidableEq, Repr

/-- Lower-case character code of a piece kind (`PieceType::to_char`). -/
def PieceType.to_char : PieceType → Char
  | PieceType.Pawn => 'p'
  | PieceType.Knight => 'n'
  | PieceType.Bishop => 'b'
  | PieceType.Rook => 'r'
  | PieceType.Queen => 'q'
  | PieceType.King => 'k'

structure Piece where
  side : Side
  piece_type : PieceType
deriving DecidableEq, Repr

structure Move where
  «from» : Int × Int
  «to» : Int × Int
  promo : Option PieceType
deriving DecidableEq, Repr

def Move.new (f t : Int × Int) : Move := { «from» := f, «to» := t, promo := none }

def Move.new_with_promo (f t : Int × Int) (promo : PieceType) : Move :=
  { «from» := f, «to» := t, promo := some promo }

/-- Character-list version of `Board::extract_file_from_name` /
`extract_rank_from_name` / `coordinates_from_name`: byte 0 minus 97 is
the file, byte 1 minus 49 is the rank.  Rust panics when the string has
fewer than two bytes; the claims only ever parse two-character square
names, so the default character is never observed. -/
def coordsOfChars (l : List Char) : Int × Int :=
  (((l.getD 1 (Char.ofNat 0)).toNat : Int) - 49,
   ((l.getD 0 (Char.ofNat 0)).toNat : Int) - 97)

namespace Board

def coordinates_from_name (square_name : String) : Int × Int :=
  coordsOfChars square_name.data

/-- `Board::name_from_coordinates`: file letter then rank digit.  Rust
formats `rank + 1` in decimal; for in-bounds coordinates this is the
single digit modeled here. -/
def name_from_coordinates (coordinates : Int × Int) : String :=
  String.mk [Char.ofNat (97 + coordinates.2).toNat, Char.ofNat (49 + coordinates.1).toNat]

def within_bounds (coordinates : Int × Int) : Bool :=
  decide (0 ≤ coordinates.1) && decide (coordinates.1 < 8) &&
    decide (0 ≤ coordinates.2) && decide (coordinates.2 < 8)

end Board

structure Board where
  squares : Int × Int → Option Piece
  white_side : List (Int × Int)
  black_side : List (Int × Int)
  white_king_location : Int × Int
  black_king_location : Int × Int

/-- The `sides` map of the Rust `Board`. -/
def Board.sides (b : Board) : Side → List (Int × Int)
  | Side.White => b.white_side
  | Side.Black => b.black_side

def Board.set_sides (b : Board) : Side → List (Int × Int) → Board
  | Side.White, l => { b with white_side := l }
  | Side.Black, l => { b with black_side := l }

/-- `HashSet::insert`. -/
def insert_coord (c : Int × Int) (l : List (Int × Int)) : List (Int × Int) :=
  if c ∈ l then l else c :: l

/-- `HashSet::remove`. -/
def remove_coord (c : Int × Int) (l : List (Int × Int)) : List (Int × Int) :=
  l.filter (fun x => decide (x ≠ c))

def Board.new_blank : Board :=
  { squares := fun _ => none
    white_side := []
    black_side := []
    white_king_location := (-1, -1)
    black_king_location := (-1, -1) }

def Board.piece_at (b : Board) (coordinates : Int × Int) : Option Piece :=
  b.squares coordinates

def Board.piece_at_square_name (b : Board) (square_name : String) : Option Piece :=
  b.piece_at (Board.coordinates_from_name square_name)

def Board.king_location (b : Board) : Side → Int × Int
  | Side.White => b.white_king_location
  | Side.Black => b.black_king_location

def Board.place_piece (b : Board) (piece : Piece) (coordinates : Int × Int) : Board :=
  let b1 := b.set_sides piece.side (insert_coord coordinates (b.sides piece.side))
  let b2 := { b1 with squares := fun x => if x = coordinates then some piece else b1.squares x }
  if piece.piece_type = PieceType.King then
    match piece.side with
    | Side.White => { b2 with white_king_location := coordinates }
    | Side.Black => { b2 with black_king_location := coordinates }
  else b2

def Board.place_piece_on_square (b : Board) (piece : Piece) (square_name : String) : Board :=
  b.place_piece piece (Board.coordinates_from_name square_name)

def Board.remove_piece (b : Board) (coordinates : Int × Int) : Board :=
  { b with
    white_side := remove_coord coordinates b.white_side
    black_side := remove_coord coordinates b.black_side
    squares := fun x => if x = coordinates then none else b.squares x }

/-- `Board::move_piece`; `none` models the `unwrap` panic on an empty
origin square. -/
def Board.move_piece (b : Board) (m : Move) : Option Board :=
  match b.piece_at m.«from» with
  | none => none
  | some piece =>
    let b1 := b.remove_piece m.«to»
    let b2 := match m.promo with
      | some promo_type => b1.place_piece { side := piece.side, piece_type := promo_type } m.«to»
      | none => b1.place_piece piece m.«to»
    let b3 := b2.remove_piece m.«from»
    some (b3.set_sides piece.side (insert_coord m.«to» (remove_coord m.«from» (b3.sides piece.side))))

def Board.new : Board :=
  let b := Board.new_blank
  let b := b.place_piece_on_square { piece_type := PieceType.Rook, side := Side.White } r"a1"
  let b := b.place_piece_on_square { piece_type := PieceType.Knight, side := Side.White } r"b1"
  let b := b.place_piece_on_square { piece_type := PieceType.Bishop, side := Side.White } r"c1"
  let b := b.place_piece_on_square { piece_type := PieceType.Queen, side := Side.White } r"d1"
  let b := b.place_piece_on_square { piece_type := PieceType.King, side := Side.White } r"e1"
  let b := b.place_piece_on_square { piece_type := PieceType.Bishop, side := Side.White } r"f1"
  let b := b.place_piece_on_square { piece_type := PieceType.Knight, side := Side.White } r"g1"
  let b := b.place_piece_on_square { piece_type := PieceType.Rook, side := Side.White } r"h1"
  let b := b.place_piece_on_square { piece_type := PieceType.Pawn, side := Side.White } r"a2"
  let b := b.place_piece_on_square { piece_type := PieceType.Pawn, side := Side.Black } r"a7"
  let b := b.place_piece_on_square { piece_type := PieceType.Pawn, side := Side.White } r"b2"
  let b := b.place_piece_on_square { piece_type := PieceType.Pawn, side := Side.Black } r"b7"
  let b := b.place_piece_on_square { piece_type := PieceType.Pawn, side := Side.White } r"c2"
  let b := b.place_piece_on_square { piece_type := PieceType.Pawn, side := Side.Black } r"c7"
  let b := b.place_piece_on_square { piece_type := PieceType.Pawn, side := Side.White } r"d2"
  let b := b.place_piece_on_square { piece_type := PieceType.Pawn, side := Side.Black } r"d7"
  let b := b.place_piece_on_square { piece_type := PieceType.Pawn, side := Side.White } r"e2"
  let b := b.place_piece_on_square { piece_type := PieceType.Pawn, side := Side.Black } r"e7"
  let b := b.place_piece_on_square { piece_type := PieceType.Pawn, side := Side.White } r"f2"
  let b := b.place_piece_on_square { piece_type := PieceType.Pawn, side := Side.Black } r"f7"
  let b := b.place_piece_on_square { piece_type := PieceType.Pawn, side := Side.White } r"g2"
  let b := b.place_piece_on_square { piece_type := PieceType.Pawn, side := Side.Black } r"g7"
  let b := b.place_piece_on_square { piece_type := PieceType.Pawn, side := Side.White } r"h2"
  let b := b.place_piece_on_square { piece_type := PieceType.Pawn, side := Side.Black } r"h7"
  let b := b.place_piece_on_square { piece_type := PieceType.Rook, side := Side.Black } r"a8"
  let b := b.place_piece_on_square { piece_type := PieceType.Knight, side := Side.Black } r"b8"
  let b := b.place_piece_on_square { piece_type := PieceType.Bishop, side := Side.Black } r"c8"
  let b := b.place_piece_on_square { piece_type := PieceType.Queen, side := Side.Black } r"d8"
  let b := b.place_piece_on_square { piece_type := PieceType.King, side := Side.Black } r"e8"
  let b := b.place_piece_on_square { piece_type := PieceType.Bishop, side := Side.Black } r"f8"
  let b := b.place_piece_on_square { piece_type := PieceType.Knight, side := Side.Black } r"g8"
  let b := b.place_piece_on_square { piece_type := PieceType.Rook, side := Side.Black } r"h8"
  b

structure CastlingAvailability where
  white_can_castle_kingside : Bool
  white_can_castle_queenside : Bool
  black_can_castle_kingside : Bool
  black_can_castle_queenside : Bool
deriving DecidableEq, Repr

def CastlingAvailability.all : CastlingAvailability :=
  { white_can_castle_kingside := true
    white_can_castle_queenside := true
    black_can_castle_kingside := true
    black_can_castle_queenside := true }

def CastlingAvailability.none : CastlingAvailability :=
  { white_can_castle_kingside := false
    white_can_castle_queenside := false
    black_can_castle_kingside := false
    black_can_castle_queenside := false }

structure GameState where
  board : Board
  side_to_move : Side
  castling_availability : CastlingAvailability
  en_passant_square : Option (Int × Int)

def GameState.new : GameState :=
  { board := Board.new
    side_to_move := Side.White
    castling_availability := CastlingAvailability.all
    en_passant_square := none }

/-- `GameState::make_move`; `none` models the `unwrap` panics (empty
origin square, or a castling king move with no rook on the corner). -/
def GameState.make_move (s : GameState) (m : Move) : Option GameState :=
  match s.board.piece_at m.«from» with
  | none => none
  | some p0 =>
  let board1 :=
    if p0.piece_type = PieceType.Pawn then
      match s.en_passant_square with
      | some sq => if sq = m.«to» then s.board.remove_piece (m.«from».1, sq.2) else s.board
      | none => s.board
    else s.board
  match board1.piece_at m.«from» with
  | none => none
  | some p1 =>
  let ep1 :=
    if p1.piece_type = PieceType.Pawn then
      if m.«from».1 - m.«to».1 = 2 then some (m.«from».1 - 1, m.«from».2)
      else if m.«from».1 - m.«to».1 = -2 then some (m.«from».1 + 1, m.«from».2)
      else (none : Option (Int × Int))
    else none
  let rookRelocated : Option Board :=
    if p1.piece_type = PieceType.King then
      if m.«to».2 - m.«from».2 = 2 then
        board1.move_piece (Move.new (m.«from».1, 7) (m.«from».1, 5))
      else if m.«to».2 - m.«from».2 = -2 then
        board1.move_piece (Move.new (m.«from».1, 0) (m.«from».1, 3))
      else some board1
    else some board1
  match rookRelocated with
  | none => none
  | some board2 =>
  let ca0 := s.castling_availability
  let ca1 :=
    if m.«from» = Board.coordinates_from_name r"a1" ∨ m.«from» = Board.coordinates_from_name r"e1" then
      { ca0 with white_can_castle_queenside := false }
    else ca0
  let ca2 :=
    if m.«from» = Board.coordinates_from_name r"h1" ∨ m.«from» = Board.coordinates_from_name r"e1" then
      { ca1 with white_can_castle_kingside := false }
    else ca1
  let ca3 :=
    if m.«from» = Board.coordinates_from_name r"a8" ∨ m.«from» = Board.coordinates_from_name r"e8" then
      { ca2 with black_can_castle_queenside := false }
    else ca2
  let ca4 :=
    if m.«from» = Board.coordinates_from_name r"h8" ∨ m.«from» = Board.coordinates_from_name r"e8" then
      { ca3 with black_can_castle_kingside := false }
    else ca3
  match board2.move_piece m with
  | none => none
  | some board3 =>
  some { board := board3
         side_to_move := s.side_to_move.other
         castling_availability := ca4
         en_passant_square := ep1 }

/-- `GameState::make_move_on_copy`: clone, mutate, return the clone. -/
def GameState.make_move_on_copy (s : GameState) (m : Move) : Option GameState :=
  s.make_move m

def promoKinds : List PieceType :=
  [PieceType.Knight, PieceType.Bishop, PieceType.Rook, PieceType.Queen]

/-- The loop body of `GameState::get_possible_moves_in_direction`,
with the remaining iteration count made explicit. -/
def slideLoop (s : GameState) (piece : Piece) (origin direction : Int × Int) :
    Nat → Int → List Move
  | 0, _ => []
  | Nat.succ k, dist =>
    let destination := (origin.1 + direction.1 * dist, origin.2 + direction.2 * dist)
    if Board.within_bounds destination then
      match s.board.piece_at destination with
      | none => Move.new origin destination :: slideLoop s piece origin direction k (dist + 1)
      | some other_piece =>
        if decide (piece.side ≠ other_piece.side) then [Move.new origin destination] else []
    else []

def GameState.get_possible_moves_in_direction (s : GameState) (origin direction : Int × Int)
    (max_distance : Nat) : List Move :=
  match s.board.piece_at origin with
  | none => []
  | some piece => slideLoop s piece origin direction max_distance 1

def pawnForwardMoves (s : GameState) (piece : Piece) (current : Int × Int) : List Move :=
  let rank := current.1
  let file := current.2
  let direction : Int := match piece.side with | Side.White => 1 | Side.Black => -1
  let on_initial_rank : Bool := match piece.side with | Side.White => decide (rank = 1) | Side.Black => decide (rank = 6)
  let one_ahead := (rank + direction, file)
  let two_ahead := (rank + direction * 2, file)
  let on_seventh := !(Board.within_bounds two_ahead)
  match s.board.piece_at one_ahead with
  | none =>
    if on_seventh then promoKinds.map (fun promo_type => Move.new_with_promo current one_ahead promo_type)
    else
      Move.new current one_ahead ::
        (if Board.within_bounds two_ahead then
          match s.board.piece_at two_ahead with
          | none => if on_initial_rank then [Move.new current two_ahead] else []
          | some _ => []
        else [])
  | some _ => []

/-- Common handling of the two pawn capture diagonals
(`forward_left` / `forward_right` in the source). -/
def pawnDiagonalMoves (s : GameState) (piece : Piece) (current target : Int × Int)
    (on_seventh : Bool) : List Move :=
  if Board.within_bounds target then
    match s.board.piece_at target with
    | none =>
      match s.en_passant_square with
      | some en_passant_square => if en_passant_square = target then [Move.new current target] else []
      | none => []
    | some other_piece =>
      if decide (piece.side ≠ other_piece.side) then
        if on_seventh then promoKinds.map (fun promo_type => Move.new_with_promo current target promo_type)
        else [Move.new current target]
      else []
  else []

def knightDirections : List (Int × Int) :=
  [(2, 1), (2, -1), (1, 2), (1, -2), (-1, 2), (-1, -2), (-2, 1), (-2, -1)]

def bishopDirections : List (Int × Int) := [(1, 1), (1, -1), (-1, 1), (-1, -1)]

def rookDirections : List (Int × Int) := [(1, 0), (-1, 0), (0, 1), (0, -1)]

def royalDirections : List (Int × Int) :=
  [(1, 1), (1, -1), (-1, 1), (-1, -1), (1, 0), (-1, 0), (0, 1), (0, -1)]

def GameState.get_possible_moves_from (s : GameState) (current : Int × Int) : List Move :=
  let rank := current.1
  let file := current.2
  match s.board.piece_at current with
  | none => []
  | some piece =>
    match piece.piece_type with
    | PieceType.Pawn =>
      let direction : Int := match piece.side with | Side.White => 1 | Side.Black => -1
      let two_ahead := (rank + direction * 2, file)
      let on_seventh := !(Board.within_bounds two_ahead)
      pawnForwardMoves s piece current ++
        pawnDiagonalMoves s piece current (rank + direction, file - 1) on_seventh ++
        pawnDiagonalMoves s piece current (rank + direction, file + 1) on_seventh
    | PieceType.Knight =>
      knightDirections.flatMap (fun direction => s.get_possible_moves_in_direction current direction 1)
    | PieceType.Bishop =>
      bishopDirections.flatMap (fun direction => s.get_possible_moves_in_direction current direction 7)
    | PieceType.Rook =>
      rookDirections.flatMap (fun direction => s.get_possible_moves_in_direction current direction 7)
    | PieceType.Queen =>
      royalDirections.flatMap (fun direction => s.get_possible_moves_in_direction current direction 7)
    | PieceType.King =>
      royalDirections.flatMap (fun direction => s.get_possible_moves_in_direction current direction 1)

def GameState.get_possible_moves (s : GameState) : List Move :=
  (s.board.sides s.side_to_move).flatMap (fun origin => s.get_possible_moves_from origin)

def GameState.is_in_check (s : GameState) (side : Side) : Bool :=
  (s.board.sides (Side.other side)).any (fun square =>
    (s.get_possible_moves_from square).any (fun m =>
      decide (m.«to» = s.board.king_location side)))

def GameState.move_would_put_self_in_check (s : GameState) (m : Move) : Option Bool :=
  match s.board.piece_at m.«from» with
  | none => none
  | some piece =>
    match s.make_move_on_copy m with
    | none => none
    | some hypothetical => some (hypothetical.is_in_check piece.side)

/-- Splitting of a character list at a separator, as Rust's
`str::split` produces the pieces consumed by `Move::from_str`. -/
def splitChar (sep : Char) : List Char → List (List Char)
  | [] => [[]]
  | c :: rest =>
    if c = sep then [] :: splitChar sep rest
    else
      match splitChar sep rest with
      | [] => [[c]]
      | h :: t => (c :: h) :: t

/-- `Move::from_str`; `none` models the `expect` panic when the string
has no `-` separator.  The promotion suffix, when present, is left in
the second part and ignored by `coordsOfChars`. -/
def Move.from_str (string : String) : Option Move :=
  match splitChar '-' string.data with
  | p1 :: p2 :: _ => some { «from» := coordsOfChars p1, «to» := coordsOfChars p2, promo := none }
  | _ => none

def Move.to_string (m : Move) : String :=
  match m.promo with
  | some promo_type =>
    Board.name_from_coordinates m.«from» ++ "-" ++ Board.name_from_coordinates m.«to» ++
      "=" ++ String.mk [promo_type.to_char]
  | none => Board.name_from_coordinates m.«from» ++ "-" ++ Board.name_from_coordinates m.«to»

/-- One castling-leg condition
`(sq1 empty && !move_would_put_self_in_check m1) && (sq2 empty && !move_would_put_self_in_check m2)`
with Rust's left-to-right short-circuit evaluation. -/
def castleCond (s : GameState) (sq1 : String) (m1 : Move) (sq2 : String) (m2 : Move) :
    Option Bool :=
  if (s.board.piece_at_square_name sq1).isSome then some false
  else
    match s.move_would_put_self_in_check m1 with
    | none => none
    | some c1 =>
      if c1 then some false
      else if (s.board.piece_at_square_name sq2).isSome then some false
      else
        match s.move_would_put_self_in_check m2 with
        | none => none
        | some c2 => some (!c2)

def GameState.get_castling_moves (s : GameState) : Option (List Move) :=
  let king_initial_square := match s.side_to_move with
    | Side.White => Board.coordinates_from_name r"e1"
    | Side.Black => Board.coordinates_from_name r"e8"
  if s.is_in_check s.side_to_move then some []
  else
    match s.board.piece_at king_initial_square with
    | none => some []
    | some piece =>
      if piece.piece_type = PieceType.King then
        match piece.side with
        | Side.White =>
          let kingsideOpt : Option (List Move) :=
            if s.castling_availability.white_can_castle_kingside then
              match Move.from_str r"e1-f1", Move.from_str r"e1-g1" with
              | some kf, some kg =>
                (match castleCond s r"f1" kf r"g1" kg with
                 | none => none
                 | some c => some (if c then [kg] else []))
              | _, _ => none
            else some []
          match kingsideOpt with
          | none => none
          | some kingside =>
            let queensideOpt : Option (List Move) :=
              if s.castling_availability.white_can_castle_queenside then
                match Move.from_str r"e1-d1", Move.from_str r"e1-c1" with
                | some kd, some kc =>
                  (match castleCond s r"d1" kd r"c1" kc with
                   | none => none
                   | some x => some (if x && !(s.board.piece_at_square_name r"b1").isSome then [kc] else []))
                | _, _ => none
              else some []
            match queensideOpt with
            | none => none
            | some queenside => some (kingside ++ queenside)
        | Side.Black =>
          let kingsideOpt : Option (List Move) :=
            if s.castling_availability.black_can_castle_kingside then
              match Move.from_str r"e8-f8", Move.from_str r"e8-g8" with
              | some kf, some kg =>
                (match castleCond s r"f8" kf r"g8" kg with
                 | none => none
                 | some c => some (if c then [kg] else []))
              | _, _ => none
            else some []
          match kingsideOpt with
          | none => none
          | some kingside =>
            let queensideOpt : Option (List Move) :=
              if s.castling_availability.black_can_castle_queenside then
                match Move.from_str r"e8-d8", Move.from_str r"e8-c8" with
                | some kd, some kc =>
                  (match castleCond s r"d8" kd r"c8" kc with
                   | none => none
                   | some x => some (if x && !(s.board.piece_at_square_name r"b8").isSome then [kc] else []))
                | _, _ => none
              else some []
            match queensideOpt with
            | none => none
            | some queenside => some (kingside ++ queenside)
      else some []

/-- The self-check filter loop of `GameState::get_legal_moves`. -/
def filterNotSelfCheck (s : GameState) : List Move → Option (List Move)
  | [] => some []
  | candidate :: rest =>
    match s.move_would_put_self_in_check candidate with
    | none => none
    | some true => filterNotSelfCheck s rest
    | some false =>
      match filterNotSelfCheck s rest with
      | none => none
      | some r => some (candidate :: r)

def GameState.get_legal_moves (s : GameState) : Option (List Move) :=
  match filterNotSelfCheck s s.get_possible_moves with
  | none => none
  | some filtered =>
    match s.get_castling_moves with
    | none => none
    | some castles => some (filtered ++ castles)

def GameState.move_is_legal (s : GameState) (candidate : Move) : Bool :=
  match s.board.piece_at candidate.«from» with
  | none => false
  | some _ => decide (candidate ∈ s.get_possible_moves_from candidate.«from»)

/-! Helper definitions used by the statements of the verified
properties, plus the concrete fixtures their witnesses evaluate. -/

/-- Rank of a side's own back rank (rank of `e1` resp. `e8`). -/
def backRank : Side → Int
  | Side.White => 0
  | Side.Black => 7

/-- Rank a pawn promotes on. -/
def farRank : Side → Int
  | Side.White => 7
  | Side.Black => 0

/-- Forward direction of a side's pawns. -/
def pawnDirection : Side → Int
  | Side.White => 1
  | Side.Black => -1

def queensideRight (ca : CastlingAvailability) : Side → Bool
  | Side.White => ca.white_can_castle_queenside
  | Side.Black => ca.black_can_castle_queenside

/-- Sequential application of `make_move`; `none` as soon as one call
would panic. -/
def applyMoves : GameState → List Move → Option GameState
  | s, [] => some s
  | s, m :: ms => (s.make_move m).bind fun s1 => applyMoves s1 ms

/-- Every castling right still set in `after` was already set in
`before`: rights transition only from `true` to `false`. -/
def rightsOnlyLost (before after : CastlingAvailability) : Prop :=
  (after.white_can_castle_kingside = true → before.white_can_castle_kingside = true) ∧
  (after.white_can_castle_queenside = true → before.white_can_castle_queenside = true) ∧
  (after.black_can_castle_kingside = true → before.black_can_castle_kingside = true) ∧
  (after.black_can_castle_queenside = true → before.black_can_castle_queenside = true)

/-- The board occupancy-index invariant of §3 of the spec,
`squares[c] = Some(p)` iff `c ∈ sides[p.side]`, read with `p` ranging
over the actual occupant: a coordinate is in a side's occupancy set
exactly when the square holds a piece of that side.  (The word-by-word
per-piece reading would be falsified by any other piece of the same
side elsewhere on the board, so this is the only satisfiable reading.) -/
def sidesIndexInv (b : Board) : Prop :=
  ∀ (c : Int × Int) (sd : Side),
    c ∈ b.sides sd ↔ ∃ p, b.piece_at c = some p ∧ p.side = sd

/-- Fixture refuting C2: White king a1, White rook b1, Black rook d1,
Black king h8; the rook is pinned, so `b1-b2` is pseudo-legal but not
legal. -/
def c2Board : Board :=
  (((Board.new_blank.place_piece { side := Side.White, piece_type := PieceType.King } (0, 0)).place_piece
    { side := Side.White, piece_type := PieceType.Rook } (0, 1)).place_piece
    { side := Side.Black, piece_type := PieceType.Rook } (0, 3)).place_piece
    { side := Side.Black, piece_type := PieceType.King } (7, 7)

def c2State : GameState :=
  { board := c2Board
    side_to_move := Side.White
    castling_availability := CastlingAvailability.none
    en_passant_square := none }

def c2Move : Move := Move.new (0, 1) (1, 1)

def c2Legal : List Move := (c2State.get_legal_moves).getD []

/-- Fixture for the castling witnesses: White king e1 and rook a1 with
only the queenside right, Black king h8. -/
def castleBoard : Board :=
  ((Board.new_blank.place_piece { side := Side.White, piece_type := PieceType.King } (0, 4)).place_piece
    { side := Side.White, piece_type := PieceType.Rook } (0, 0)).place_piece
    { side := Side.Black, piece_type := PieceType.King } (7, 7)

def castleState : GameState :=
  { board := castleBoard
    side_to_move := Side.White
    castling_availability :=
      { white_can_castle_kingside := false
        white_can_castle_queenside := true
        black_can_castle_kingside := false
        black_can_castle_queenside := false }
    en_passant_square := none }

def castleLegal : List Move := (castleState.get_legal_moves).getD []

def castleList : List Move := (castleState.get_castling_moves).getD []

/-- Fixture for the en-passant witness: White pawn e5, Black pawn d5,
en-passant square d6. -/
def epBoard : Board :=
  (Board.new_blank.place_piece { side := Side.White, piece_type := PieceType.Pawn } (4, 4)).place_piece
    { side := Side.Black, piece_type := PieceType.Pawn } (4, 3)

def epState : GameState :=
  { board := epBoard
    side_to_move := Side.White
    castling_availability := CastlingAvailability.all
    en_passant_square := some (5, 3) }

def epMove : Move := Move.new (4, 4) (5, 3)

/-- Fixture for the check-detection witness: White king a1 attacked by
a Black rook on f1. -/
def checkBoard : Board :=
  (Board.new_blank.place_piece { side := Side.White, piece_type := PieceType.King } (0, 0)).place_piece
    { side := Side.Black, piece_type := PieceType.Rook } (0, 5)

def checkState : GameState :=
  { board := checkBoard
    side_to_move := Side.Black
    castling_availability := CastlingAvailability.none
    en_passant_square := none }

/-- Fixture for the promotion witness: a lone White pawn on a7. -/
def promoBoard : Board :=
  Board.new_blank.place_piece { side := Side.White, piece_type := PieceType.Pawn } (6, 0)

def promoState : GameState :=
  { board := promoBoard
    side_to_move := Side.White
    castling_availability := CastlingAvailability.none
    en_passant_square := none }

/-! Shared lemmas about the board primitives. -/

theorem piece_at_remove_piece (b : Board) (c x : Int × Int) :
    (b.remove_piece c).piece_at x = if x = c then none else b.piece_at x := rfl

theorem sides_remove_piece (b : Board) (c : Int × Int) (sd : Side) :
    (b.remove_piece c).sides sd = remove_coord c (b.sides sd) := by
  cases sd <;> rfl

theorem piece_at_place_piece (b : Board) (p : Piece) (c x : Int × Int) :
    (b.place_piece p c).piece_at x = if x = c then some p else b.piece_at x := by
  obtain ⟨sd, pt⟩ := p
  cases sd <;> cases pt <;> rfl

theorem sides_place_piece (b : Board) (p : Piece) (c : Int × Int) (sd : Side) :
    (b.place_piece p c).sides sd =
      if sd = p.side then insert_coord c (b.sides p.side) else b.sides sd := by
  obtain ⟨psd, pt⟩ := p
  cases psd <;> cases pt <;> cases sd <;> rfl

theorem piece_at_set_sides (b : Board) (sd : Side) (l : List (Int × Int)) (x : Int × Int) :
    (b.set_sides sd l).piece_at x = b.piece_at x := by
  cases sd <;> rfl

theorem sides_set_sides (b : Board) (sd : Side) (l : List (Int × Int)) (sd' : Side) :
    (b.set_sides sd l).sides sd' = if sd' = sd then l else b.sides sd' := by
  cases sd <;> cases sd' <;> rfl

theorem mem_insert_coord (x c : Int × Int) (l : List (Int × Int)) :
    x ∈ insert_coord c l ↔ x = c ∨ x ∈ l := by
  unfold insert_coord
  split
  · constructor
    · exact fun h => Or.inr h
    · rintro (rfl | h) <;> assumption
  · simp [List.mem_cons]

theorem mem_remove_coord (x c : Int × Int) (l : List (Int × Int)) :
    x ∈ remove_coord c l ↔ x ∈ l ∧ x ≠ c := by
  simp [remove_coord]

/-! C2: `move_is_legal` versus `get_legal_moves`. -/

/-- C2 (counterexample): with a White king on a1, a pinned White rook
on b1 and a Black rook on d1, the move b1-b2 is accepted by
`move_is_legal` yet absent from `get_legal_moves()` (it leaves White in
check), so `move_is_legal` does not coincide with legality. -/
theorem move_is_legal_not_legality_counterexample :
    c2State.move_is_legal c2Move = true ∧
      c2State.get_legal_moves = some c2Legal ∧ c2Move ∉ c2Legal :=
  ⟨by decide, by decide, by decide⟩

/-- C2 (amended): `move_is_legal(candidate)` returns true iff the
candidate is a pseudo-legal move of the piece on its origin square,
i.e. an element of `get_possible_moves_from(candidate.from)`; it
returns false, without crashing, when the origin square holds no
piece.  It does not test self-check and never accepts castling moves,
so it is not membership in `get_legal_moves()`. -/
theorem move_is_legal_iff_pseudo_legal (s : GameState) (candidate : Move) :
    (s.move_is_legal candidate = true ↔
      candidate ∈ s.get_possible_moves_from candidate.«from») ∧
    (s.board.piece_at candidate.«from» = none → s.move_is_legal candidate = false) := by
  constructor
  · unfold GameState.move_is_legal
    split
    · next heq =>
      simp only [Bool.false_eq_true, false_iff]
      unfold GameState.get_possible_moves_from
      rw [heq]
      simp
    · simp
  · intro h
    unfold GameState.move_is_legal
    rw [h]

/-- C2 (amended, witness): on the pin fixture, a move out of the empty
square f6 is rejected. -/
theorem move_is_legal_iff_pseudo_legal_witness :
    c2State.move_is_legal (Move.new (5, 5) (5, 6)) = false :=
  (move_is_legal_iff_pseudo_legal c2State (Move.new (5, 5) (5, 6))).2 (by decide)

/-! C3: check detection. -/

/-- C3: `is_in_check(side)` is true iff some square occupied by the
opposing side has a pseudo-legal move whose destination is `side`'s
cached king location. -/
theorem is_in_check_iff_attacked (s : GameState) (side : Side) :
    s.is_in_check side = true ↔
      ∃ square ∈ s.board.sides (Side.other side),
        ∃ m ∈ s.get_possible_moves_from square,
          m.«to» = s.board.king_location side := by
  unfold GameState.is_in_check
  simp [List.any_eq_true]

/-- C3 (witness): a Black rook on f1 checks the White king on a1. -/
theorem is_in_check_iff_attacked_witness : checkState.is_in_check Side.White = true :=
  (is_in_check_iff_attacked checkState Side.White).mpr
    ⟨(0, 5), by decide, Move.new (0, 5) (0, 0), by decide, by decide⟩

/-! Decomposition of a successful `make_move` into its stages. -/

theorem make_move_some_decomp {s : GameState} {m : Move} {s' : GameState}
    (h : s.make_move m = some s') :
    ∃ p0 board1 p1 board2 board3,
      s.board.piece_at m.«from» = some p0 ∧
      board1 = (if p0.piece_type = PieceType.Pawn then
          match s.en_passant_square with
          | some sq => if sq = m.«to» then s.board.remove_piece (m.«from».1, sq.2) else s.board
          | none => s.board
        else s.board) ∧
      board1.piece_at m.«from» = some p1 ∧
      (if p1.piece_type = PieceType.King then
          if m.«to».2 - m.«from».2 = 2 then
            board1.move_piece (Move.new (m.«from».1, 7) (m.«from».1, 5))
          else if m.«to».2 - m.«from».2 = -2 then
            board1.move_piece (Move.new (m.«from».1, 0) (m.«from».1, 3))
          else some board1
        else some board1) = some board2 ∧
      board2.move_piece m = some board3 ∧
      s'.board = board3 ∧
      s'.side_to_move = s.side_to_move.other ∧
      s'.en_passant_square = (if p1.piece_type = PieceType.Pawn then
          if m.«from».1 - m.«to».1 = 2 then some (m.«from».1 - 1, m.«from».2)
          else if m.«from».1 - m.«to».1 = -2 then some (m.«from».1 + 1, m.«from».2)
          else none
        else none) ∧
      s'.castling_availability =
        (let ca0 := s.castling_availability
         let ca1 := if m.«from» = Board.coordinates_from_name r"a1" ∨
             m.«from» = Board.coordinates_from_name r"e1" then
           { ca0 with white_can_castle_queenside := false } else ca0
         let ca2 := if m.«from» = Board.coordinates_from_name r"h1" ∨
             m.«from» = Board.coordinates_from_name r"e1" then
           { ca1 with white_can_castle_kingside := false } else ca1
         let ca3 := if m.«from» = Board.coordinates_from_name r"a8" ∨
             m.«from» = Board.coordinates_from_name r"e8" then
           { ca2 with black_can_castle_queenside := false } else ca2
         let ca4 := if m.«from» = Board.coordinates_from_name r"h8" ∨
             m.«from» = Board.coordinates_from_name r"e8" then
           { ca3 with black_can_castle_kingside := false } else ca3
         ca4) := by
  unfold GameState.make_move at h
  rcases hp0 : s.board.piece_at m.«from» with _ | p0
  · rw [hp0] at h
    exact Option.noConfusion h
  rw [hp0] at h
  simp only [] at h
  generalize hB1 : (if p0.piece_type = PieceType.Pawn then
      match s.en_passant_square with
      | some sq => if sq = m.«to» then s.board.remove_piece (m.«from».1, sq.2) else s.board
      | none => s.board
    else s.board) = board1 at h
  rcases hp1 : board1.piece_at m.«from» with _ | p1
  · rw [hp1] at h
    exact Option.noConfusion h
  rw [hp1] at h
  simp only [] at h
  rcases hR : (if p1.piece_type = PieceType.King then
      if m.«to».2 - m.«from».2 = 2 then
        board1.move_piece (Move.new (m.«from».1, 7) (m.«from».1, 5))
      else if m.«to».2 - m.«from».2 = -2 then
        board1.move_piece (Move.new (m.«from».1, 0) (m.«from».1, 3))
      else some board1
    else some board1) with _ | board2
  · rw [hR] at h
    exact Option.noConfusion h
  rw [hR] at h
  simp only [] at h
  rcases hMp : board2.move_piece m with _ | board3
  · rw [hMp] at h
    exact Option.noConfusion h
  rw [hMp] at h
  simp only [] at h
  have hrec := Option.some.inj h
  subst hrec
  exact ⟨p0, board1, p1, board2, board3, rfl, hB1.symm, hp1, hR, hMp, rfl, rfl, rfl, rfl⟩

/-! C6 and C7: castling-rights bookkeeping of `make_move`. -/

/-- C6: a move whose origin is none of a1, e1, h1, a8, e8, h8 leaves
all four castling-availability flags unchanged; in particular a move
that merely captures an opposing rook on its original corner square
(origin elsewhere) does not clear the corresponding right. -/
theorem make_move_off_corner_preserves_rights
    (s : GameState) (m : Move) (s' : GameState)
    (ha1 : m.«from» ≠ Board.coordinates_from_name r"a1")
    (he1 : m.«from» ≠ Board.coordinates_from_name r"e1")
    (hh1 : m.«from» ≠ Board.coordinates_from_name r"h1")
    (ha8 : m.«from» ≠ Board.coordinates_from_name r"a8")
    (he8 : m.«from» ≠ Board.coordinates_from_name r"e8")
    (hh8 : m.«from» ≠ Board.coordinates_from_name r"h8")
    (h : s.make_move m = some s') :
    s'.castling_availability = s.castling_availability := by
  obtain ⟨p0, board1, p1, board2, board3, _, _, _, _, _, _, _, _, hca⟩ :=
    make_move_some_decomp h
  rw [hca]
  simp [ha1, he1, hh1, ha8, he8, hh8]

/-- C6 (witness): the knight move b1-c3 from the initial position
leaves the rights untouched. -/
theorem make_move_off_corner_preserves_rights_witness :
    ((GameState.new.make_move (Move.new (0, 1) (2, 2))).get (by decide)).castling_availability =
      GameState.new.castling_availability :=
  make_move_off_corner_preserves_rights GameState.new (Move.new (0, 1) (2, 2)) _
    (by decide) (by decide) (by decide) (by decide) (by decide) (by decide)
    (Option.some_get (by decide)).symm

theorem rightsOnlyLost_refl (ca : CastlingAvailability) : rightsOnlyLost ca ca :=
  ⟨fun h => h, fun h => h, fun h => h, fun h => h⟩

theorem rightsOnlyLost_trans {a b c : CastlingAvailability}
    (h1 : rightsOnlyLost a b) (h2 : rightsOnlyLost b c) : rightsOnlyLost a c :=
  ⟨fun h => h1.1 (h2.1 h), fun h => h1.2.1 (h2.2.1 h),
   fun h => h1.2.2.1 (h2.2.2.1 h), fun h => h1.2.2.2 (h2.2.2.2 h)⟩

/-- A single `make_move` only ever clears castling rights. -/
theorem make_move_rightsOnlyLost {s : GameState} {m : Move} {s' : GameState}
    (h : s.make_move m = some s') :
    rightsOnlyLost s.castling_availability s'.castling_availability := by
  obtain ⟨p0, board1, p1, board2, board3, _, _, _, _, _, _, _, _, hca⟩ :=
    make_move_some_decomp h
  unfold rightsOnlyLost
  rw [hca]
  split_ifs <;> refine ⟨?_, ?_, ?_, ?_⟩ <;> intro hx <;>
    first
    | exact hx
    | simpa using hx

/-- C7: along any sequence of `make_move` calls from `GameState::new()`,
every castling flag still set after further moves was already set
before them: flags only ever transition from true to false. -/
theorem castling_rights_monotone
    (ms1 : List Move) (s1 : GameState) (ms2 : List Move) (s2 : GameState)
    (h1 : applyMoves GameState.new ms1 = some s1)
    (h2 : applyMoves s1 ms2 = some s2) :
    rightsOnlyLost s1.castling_availability s2.castling_availability := by
  clear h1
  induction ms2 generalizing s1 with
  | nil =>
    unfold applyMoves at h2
    obtain rfl := Option.some.inj h2
    exact rightsOnlyLost_refl _
  | cons m ms ih =>
    unfold applyMoves at h2
    rcases hm : s1.make_move m with _ | s1'
    · rw [hm] at h2
      exact Option.noConfusion h2
    rw [hm] at h2
    simp only [Option.some_bind] at h2
    exact rightsOnlyLost_trans (make_move_rightsOnlyLost hm) (ih s1' h2)

/-- C7 (witness): after 1. e2-e4 from the start, the rights are still
dominated by the initial all-true rights. -/
theorem castling_rights_monotone_witness :
    rightsOnlyLost GameState.new.castling_availability
      ((applyMoves GameState.new [Move.new (1, 4) (3, 4)]).get (by decide)).castling_availability :=
  castling_rights_monotone [] GameState.new [Move.new (1, 4) (3, 4)] _ rfl
    (Option.some_get (by decide)).symm

/-! C4: en-passant behavior of `make_move`. -/

theorem side_other_ne (sd : Side) : Side.other sd ≠ sd := by
  cases sd <;> decide

/-- C4: if the moving piece is a pawn and the destination is the
current en-passant square, the enemy pawn on (origin rank, destination
file) is removed: afterwards that coordinate is not in the opposing
side's occupancy set, holds no opposing piece, and (whenever the
destination rank differs from the origin rank, as in every genuine
en-passant capture) is empty.  Moreover after any successful
`make_move` the new `en_passant_square` is the skipped-over square
(origin rank ± 1, origin file) exactly when the moved piece is a pawn
whose origin and destination ranks differ by two, and `none`
otherwise. -/
theorem make_move_en_passant_postcondition
    (s : GameState) (m : Move) (s' : GameState) (p : Piece)
    (hp : s.board.piece_at m.«from» = some p)
    (h : s.make_move m = some s') :
    (p.piece_type = PieceType.Pawn → s.en_passant_square = some m.«to» →
      ((m.«from».1, m.«to».2) ∉ s'.board.sides (Side.other p.side) ∧
        (∀ q, s'.board.piece_at (m.«from».1, m.«to».2) = some q → q.side = p.side) ∧
        (m.«from».1 ≠ m.«to».1 → s'.board.piece_at (m.«from».1, m.«to».2) = none))) ∧
    s'.en_passant_square =
      (if p.piece_type = PieceType.Pawn ∧ m.«from».1 - m.«to».1 = 2 then
          some (m.«from».1 - 1, m.«from».2)
        else if p.piece_type = PieceType.Pawn ∧ m.«from».1 - m.«to».1 = -2 then
          some (m.«from».1 + 1, m.«from».2)
        else none) := by
  obtain ⟨p0, board1, p1, board2, board3, hp0, hB1, hp1, hR, hMp, hbrd, hstm, hep, hca⟩ :=
    make_move_some_decomp h
  rw [hp] at hp0
  obtain rfl := Option.some.inj hp0
  -- the re-read piece is the original piece
  have hp1p : p = p1 := by
    by_cases hpt : p.piece_type = PieceType.Pawn
    · rcases hq : s.en_passant_square with _ | sq
      · rw [hq] at hB1
        simp only [hpt, if_true] at hB1
        rw [hB1, hp] at hp1
        exact Option.some.inj hp1
      · rw [hq] at hB1
        simp only [hpt, if_true] at hB1
        by_cases hsq : sq = m.«to»
        · rw [if_pos hsq] at hB1
          rw [hB1, piece_at_remove_piece] at hp1
          by_cases hfr : m.«from» = (m.«from».1, sq.2)
          · rw [if_pos hfr] at hp1
            exact Option.noConfusion hp1
          · rw [if_neg hfr, hp] at hp1
            exact Option.some.inj hp1
        · rw [if_neg hsq] at hB1
          rw [hB1, hp] at hp1
          exact Option.some.inj hp1
    · simp only [hpt, if_false] at hB1
      rw [hB1, hp] at hp1
      exact Option.some.inj hp1
  subst hp1p
  constructor
  · intro hpt hq
    -- part A: the en-passant capture case
    have hB1' : board1 = s.board.remove_piece (m.«from».1, m.«to».2) := by
      rw [hB1, hq]
      simp [hpt]
    have hfr : m.«from» ≠ (m.«from».1, m.«to».2) := by
      intro hcontra
      rw [hB1', piece_at_remove_piece, if_pos hcontra] at hp1
      exact Option.noConfusion hp1
    have hb2 : board2 = board1 := by
      rw [hpt] at hR
      simp only [reduceCtorEq, if_false] at hR
      exact (Option.some.inj hR).symm
    unfold Board.move_piece at hMp
    rw [hb2, hB1'] at hMp
    rw [piece_at_remove_piece, if_neg hfr, hp] at hMp
    simp only [] at hMp
    obtain rfl := (Option.some.inj hMp).symm
    rw [hbrd]
    refine ⟨?_, ?_, ?_⟩
    · -- not in the opposing occupancy set
      rcases hpr : m.promo with _ | k <;> simp only [hpr] <;>
        intro hmem <;>
        simp [sides_set_sides, sides_remove_piece, sides_place_piece, mem_remove_coord,
          side_other_ne] at hmem
    · -- any piece now there is the mover's
      rcases hpr : m.promo with _ | k <;> simp only [hpr] <;>
        intro q hq2 <;>
        rw [piece_at_set_sides, piece_at_remove_piece,
          if_neg (fun hc => hfr hc.symm), piece_at_place_piece] at hq2 <;>
        by_cases h2 : (m.«from».1, m.«to».2) = m.«to»
      · rw [if_pos h2] at hq2
        obtain rfl := (Option.some.inj hq2).symm
        rfl
      · rw [if_neg h2, piece_at_remove_piece, if_neg h2, piece_at_remove_piece,
          if_pos rfl] at hq2
        exact Option.noConfusion hq2
      · rw [if_pos h2] at hq2
        obtain rfl := (Option.some.inj hq2).symm
        rfl
      · rw [if_neg h2, piece_at_remove_piece, if_neg h2, piece_at_remove_piece,
          if_pos rfl] at hq2
        exact Option.noConfusion hq2
    · -- with distinct ranks the square is empty
      intro hrank
      have h2 : (m.«from».1, m.«to».2) ≠ m.«to» := by
        intro hc
        have h5 : (m.«from».1, m.«to».2).1 = m.«to».1 := congrArg Prod.fst hc
        exact hrank h5
      rcases hpr : m.promo with _ | k <;> simp only [hpr] <;>
        rw [piece_at_set_sides, piece_at_remove_piece, if_neg (fun hc => hfr hc.symm),
          piece_at_place_piece, if_neg h2, piece_at_remove_piece, if_neg h2,
          piece_at_remove_piece, if_pos rfl]
  · -- part B: the en-passant window equation
    rw [hep]
    by_cases hpt : p.piece_type = PieceType.Pawn <;> simp [hpt]

/-- C4 (witness): capturing en passant with a White pawn e5 onto d6
empties d5 and clears the en-passant window. -/
theorem make_move_en_passant_postcondition_witness :
    ((epState.make_move epMove).get (by decide)).board.piece_at
        (epMove.«from».1, epMove.«to».2) = none ∧
      ((epState.make_move epMove).get (by decide)).en_passant_square = none := by
  have happ := make_move_en_passant_postcondition epState epMove
    ((epState.make_move epMove).get (by decide))
    { side := Side.White, piece_type := PieceType.Pawn }
    (by decide) (Option.some_get (by decide)).symm
  refine ⟨(happ.1 rfl (by decide)).2.2 (by decide), ?_⟩
  rw [happ.2]
  decide

/-! C8: preservation of the occupancy-index invariant. -/

theorem insert_coord_of_mem {c : Int × Int} {l : List (Int × Int)} (h : c ∈ l) :
    insert_coord c l = l := by
  unfold insert_coord
  rw [if_pos h]

theorem remove_coord_of_not_mem {c : Int × Int} {l : List (Int × Int)} (h : c ∉ l) :
    remove_coord c l = l := by
  unfold remove_coord
  apply List.filter_eq_self.mpr
  intro x hx
  simp only [decide_eq_true_eq]
  intro hcontra
  exact h (hcontra ▸ hx)

theorem sidesIndexInv_new_blank : sidesIndexInv Board.new_blank := by
  intro c sd
  cases sd <;> simp [Board.new_blank, Board.piece_at, Board.sides]

theorem sidesIndexInv_remove_piece {b : Board} (hInv : sidesIndexInv b) (c0 : Int × Int) :
    sidesIndexInv (b.remove_piece c0) := by
  intro c sd
  rw [sides_remove_piece, mem_remove_coord]
  by_cases hx : c = c0
  · subst hx
    simp [piece_at_remove_piece]
  · simp only [piece_at_remove_piece, if_neg hx]
    rw [hInv c sd]
    simp [hx]

theorem sidesIndexInv_place_piece {b : Board} (hInv : sidesIndexInv b)
    (p0 : Piece) (c0 : Int × Int)
    (hOcc : ∀ q, b.piece_at c0 = some q → q.side = p0.side) :
    sidesIndexInv (b.place_piece p0 c0) := by
  intro c sd
  rw [sides_place_piece]
  by_cases hx : c = c0
  · subst hx
    by_cases hsd : sd = p0.side
    · subst hsd
      rw [if_pos rfl]
      simp only [piece_at_place_piece, if_pos rfl]
      constructor
      · intro _
        exact ⟨p0, rfl, rfl⟩
      · intro _
        rw [mem_insert_coord]
        exact Or.inl rfl
    · rw [if_neg hsd]
      simp only [piece_at_place_piece, if_pos rfl]
      constructor
      · intro h
        obtain ⟨p, hp, hps⟩ := (hInv c sd).mp h
        exact absurd (hps.symm.trans (hOcc p hp)) hsd
      · rintro ⟨p, hp, hps⟩
        obtain rfl := Option.some.inj hp
        exact absurd hps.symm hsd
  · simp only [piece_at_place_piece, if_neg hx]
    by_cases hsd : sd = p0.side
    · subst hsd
      rw [if_pos rfl, mem_insert_coord]
      simp only [hx, false_or]
      exact hInv c p0.side
    · rw [if_neg hsd]
      exact hInv c sd

/-- The board produced by `move_piece` (destination cleared, piece or
its promotion placed, origin cleared, occupancy set touched up)
satisfies the invariant whenever the source board does. -/
theorem sidesIndexInv_move_core {b : Board} (hInv : sidesIndexInv b)
    (X p : Piece) (hXs : X.side = p.side) (mfrom mto : Int × Int) (hne : mfrom ≠ mto) :
    sidesIndexInv ((((b.remove_piece mto).place_piece X mto).remove_piece mfrom).set_sides p.side
      (insert_coord mto
        (remove_coord mfrom ((((b.remove_piece mto).place_piece X mto).remove_piece mfrom).sides p.side)))) := by
  have hInvA : sidesIndexInv (b.remove_piece mto) := sidesIndexInv_remove_piece hInv _
  have hInvB : sidesIndexInv ((b.remove_piece mto).place_piece X mto) := by
    apply sidesIndexInv_place_piece hInvA
    intro q hq
    rw [piece_at_remove_piece, if_pos rfl] at hq
    exact Option.noConfusion hq
  have hInvC : sidesIndexInv (((b.remove_piece mto).place_piece X mto).remove_piece mfrom) :=
    sidesIndexInv_remove_piece hInvB _
  have hmemTo : mto ∈ (((b.remove_piece mto).place_piece X mto).remove_piece mfrom).sides p.side := by
    rw [sides_remove_piece, mem_remove_coord, sides_place_piece, hXs, if_pos rfl]
    exact ⟨(mem_insert_coord _ _ _).mpr (Or.inl rfl), fun hc => hne hc.symm⟩
  have hmemFrom :
      mfrom ∉ (((b.remove_piece mto).place_piece X mto).remove_piece mfrom).sides p.side := by
    rw [sides_remove_piece, mem_remove_coord]
    rintro ⟨-, hcc⟩
    exact hcc rfl
  intro c sd
  rw [sides_set_sides, piece_at_set_sides]
  by_cases hsd : sd = p.side
  · subst hsd
    rw [if_pos rfl, remove_coord_of_not_mem hmemFrom, insert_coord_of_mem hmemTo]
    exact hInvC c _
  · rw [if_neg hsd]
    exact hInvC c sd

theorem sidesIndexInv_move_piece {b : Board} {m : Move} {p : Piece} {b' : Board}
    (hInv : sidesIndexInv b) (hp : b.piece_at m.«from» = some p)
    (hne : m.«from» ≠ m.«to») (h : b.move_piece m = some b') :
    sidesIndexInv b' := by
  unfold Board.move_piece at h
  rw [hp] at h
  simp only [] at h
  obtain rfl := (Option.some.inj h).symm
  rcases hpr : m.promo with _ | k <;> simp only [hpr]
  · exact sidesIndexInv_move_core hInv p p rfl m.«from» m.«to» hne
  · exact sidesIndexInv_move_core hInv { side := p.side, piece_type := k } p rfl
      m.«from» m.«to» hne

/-- C8: the occupancy-index invariant — every coordinate is in a
side's occupancy set iff its square holds a piece of that side — is
preserved by `remove_piece` on any in-bounds coordinate, by
`move_piece` for any move whose origin holds a piece and differs from
its destination, and by `place_piece` whenever the destination is not
occupied by a piece of the other side. -/
theorem board_index_invariant_preserved :
    (∀ (b : Board) (c : Int × Int), sidesIndexInv b → Board.within_bounds c = true →
        sidesIndexInv (b.remove_piece c)) ∧
    (∀ (b : Board) (m : Move) (p : Piece) (b' : Board), sidesIndexInv b →
        b.piece_at m.«from» = some p → m.«from» ≠ m.«to» → b.move_piece m = some b' →
        sidesIndexInv b') ∧
    (∀ (b : Board) (p : Piece) (c : Int × Int), sidesIndexInv b →
        (∀ q, b.piece_at c = some q → q.side = p.side) →
        sidesIndexInv (b.place_piece p c)) :=
  ⟨fun _ c hInv _ => sidesIndexInv_remove_piece hInv c,
   fun _ _ _ _ hInv hp hne h => sidesIndexInv_move_piece hInv hp hne h,
   fun _ p c hInv hOcc => sidesIndexInv_place_piece hInv p c hOcc⟩

/-- C8 (witness): placing a pawn on an empty board, removing a square,
and sliding the pawn all keep the index invariant. -/
theorem board_index_invariant_preserved_witness :
    sidesIndexInv (Board.new_blank.place_piece
        { side := Side.White, piece_type := PieceType.Pawn } (3, 3)) ∧
    sidesIndexInv ((Board.new_blank.place_piece
        { side := Side.White, piece_type := PieceType.Pawn } (3, 3)).remove_piece (4, 4)) ∧
    sidesIndexInv (((Board.new_blank.place_piece
        { side := Side.White, piece_type := PieceType.Pawn } (3, 3)).move_piece
        (Move.new (3, 3) (4, 3))).get (by decide)) := by
  have h1 := board_index_invariant_preserved.2.2 Board.new_blank
    { side := Side.White, piece_type := PieceType.Pawn } (3, 3) sidesIndexInv_new_blank
    (fun q hq => Option.noConfusion hq)
  refine ⟨h1, board_index_invariant_preserved.1 _ (4, 4) h1 (by decide), ?_⟩
  exact board_index_invariant_preserved.2.1 _ (Move.new (3, 3) (4, 3))
    { side := Side.White, piece_type := PieceType.Pawn } _ h1 (by decide) (by decide)
    (Option.some_get (by decide)).symm

/-! C9: textual round-trip of moves. -/

theorem splitChar_append_sep (sep : Char) (l r : List Char) (h : sep ∉ l) :
    splitChar sep (l ++ sep :: r) = l :: splitChar sep r := by
  induction l with
  | nil =>
    simp [splitChar]
  | cons x xs ih =>
    have hx : ¬x = sep := fun hc => h (hc ▸ List.mem_cons_self x xs)
    simp only [List.cons_append, splitChar, if_neg hx]
    rw [List.append_eq, ih (fun hc => h (List.mem_cons_of_mem x hc))]

theorem splitChar_of_not_mem (sep : Char) (l : List Char) (h : sep ∉ l) :
    splitChar sep l = [l] := by
  induction l with
  | nil => rfl
  | cons x xs ih =>
    have hx : ¬x = sep := fun hc => h (hc ▸ List.mem_cons_self x xs)
    simp only [splitChar, if_neg hx]
    rw [ih (fun hc => h (List.mem_cons_of_mem x hc))]


theorem coordsOfChars_cons₂ (a b : Char) (rest : List Char) :
    coordsOfChars (a :: b :: rest) = coordsOfChars [a, b] := rfl

theorem to_char_ne_dash (k : PieceType) : ¬k.to_char = '-' := by
  cases k <;> decide

/-- Round-trip of a square name through the two-character parser, for
every in-bounds coordinate, together with the fact that the name never
contains the move separator. -/
theorem coords_name_roundtrip_fin :
    ∀ r f : Fin 8,
      coordsOfChars (Board.name_from_coordinates ((r.val : Int), (f.val : Int))).data =
          ((r.val : Int), (f.val : Int)) ∧
        '-' ∉ (Board.name_from_coordinates ((r.val : Int), (f.val : Int))).data := by
  decide

theorem coords_name_roundtrip_int (c : Int × Int) (h : Board.within_bounds c = true) :
    coordsOfChars (Board.name_from_coordinates c).data = c ∧
      '-' ∉ (Board.name_from_coordinates c).data := by
  obtain ⟨r, f⟩ := c
  simp only [Board.within_bounds, Bool.and_eq_true, decide_eq_true_eq] at h
  obtain ⟨⟨⟨h1, h2⟩, h3⟩, h4⟩ := h
  have hfin := coords_name_roundtrip_fin ⟨r.toNat, by omega⟩ ⟨f.toNat, by omega⟩
  have hr : (((⟨r.toNat, by omega⟩ : Fin 8).val : Nat) : Int) = r := Int.toNat_of_nonneg h1
  have hf : (((⟨f.toNat, by omega⟩ : Fin 8).val : Nat) : Int) = f := Int.toNat_of_nonneg h3
  rw [hr, hf] at hfin
  exact hfin

/-- C9: for every move with in-bounds origin and destination,
`from_str(to_string(m))` recovers the origin and destination exactly
but always returns `promo = None` — the identity round-trip for
non-promotion moves, and the promotion-suffix-dropping asymmetry for
promotion moves. -/
theorem from_str_to_string_roundtrip (m : Move)
    (h1 : Board.within_bounds m.«from» = true)
    (h2 : Board.within_bounds m.«to» = true) :
    Move.from_str m.to_string = some { «from» := m.«from», «to» := m.«to», promo := none } := by
  obtain ⟨hc1, hd1⟩ := coords_name_roundtrip_int m.«from» h1
  obtain ⟨hc2, hd2⟩ := coords_name_roundtrip_int m.«to» h2
  rcases m with ⟨mf, mt, pr⟩
  rcases pr with _ | k
  · unfold Move.to_string Move.from_str
    simp only []
    have hdata :
        (Board.name_from_coordinates mf ++ "-" ++ Board.name_from_coordinates mt).data =
          (Board.name_from_coordinates mf).data ++ '-' :: (Board.name_from_coordinates mt).data := by
      simp [String.data_append]
    rw [hdata, splitChar_append_sep _ _ _ hd1, splitChar_of_not_mem _ _ hd2]
    simp only [hc1, hc2]
  · unfold Move.to_string Move.from_str
    simp only []
    have hnt :
        (Board.name_from_coordinates mt).data =
          [Char.ofNat (97 + mt.2).toNat, Char.ofNat (49 + mt.1).toNat] := rfl
    have hdash3 : '-' ∉ (Board.name_from_coordinates mt).data ++ '=' :: [k.to_char] := by
      intro hmem
      rcases List.mem_append.mp hmem with hmem | hmem
      · exact hd2 hmem
      · rcases List.mem_cons.mp hmem with hmem | hmem
        · exact absurd hmem.symm (by decide)
        · exact to_char_ne_dash k (List.mem_singleton.mp hmem).symm
    have hdata :
        (Board.name_from_coordinates mf ++ "-" ++ Board.name_from_coordinates mt ++ "=" ++
            String.mk [k.to_char]).data =
          (Board.name_from_coordinates mf).data ++
            '-' :: ((Board.name_from_coordinates mt).data ++ '=' :: [k.to_char]) := by
      simp [String.data_append]
    rw [hdata, splitChar_append_sep _ _ _ hd1, splitChar_of_not_mem _ _ hdash3]
    simp only []
    rw [hnt]
    rw [List.cons_append, List.cons_append, List.nil_append]
    rw [coordsOfChars_cons₂]
    rw [← hnt, hc1, hc2]

/-- C9 (witness): c2-c4 round-trips exactly; a7-a8=q loses only the
promotion field. -/
theorem from_str_to_string_roundtrip_witness :
    Move.from_str (Move.new (1, 2) (3, 2)).to_string = some (Move.new (1, 2) (3, 2)) ∧
      Move.from_str (Move.new_with_promo (6, 0) (7, 0) PieceType.Queen).to_string =
        some (Move.new (6, 0) (7, 0)) :=
  ⟨from_str_to_string_roundtrip (Move.new (1, 2) (3, 2)) (by decide) (by decide),
   from_str_to_string_roundtrip (Move.new_with_promo (6, 0) (7, 0) PieceType.Queen)
     (by decide) (by decide)⟩

/-! Castling analysis shared by C1 and C5. -/

theorem from_str_e1f1 : Move.from_str r"e1-f1" = some (Move.new (0, 4) (0, 5)) := by decide

theorem from_str_e1g1 : Move.from_str r"e1-g1" = some (Move.new (0, 4) (0, 6)) := by decide

theorem from_str_e1d1 : Move.from_str r"e1-d1" = some (Move.new (0, 4) (0, 3)) := by decide

theorem from_str_e1c1 : Move.from_str r"e1-c1" = some (Move.new (0, 4) (0, 2)) := by decide

theorem from_str_e8f8 : Move.from_str r"e8-f8" = some (Move.new (7, 4) (7, 5)) := by decide

theorem from_str_e8g8 : Move.from_str r"e8-g8" = some (Move.new (7, 4) (7, 6)) := by decide

theorem from_str_e8d8 : Move.from_str r"e8-d8" = some (Move.new (7, 4) (7, 3)) := by decide

theorem from_str_e8c8 : Move.from_str r"e8-c8" = some (Move.new (7, 4) (7, 2)) := by decide

/-- What a `some` result of the short-circuit castling condition
means: true exactly when both squares are empty and both hypothetical
king moves are safe. -/
theorem castleCond_eq_some {s : GameState} {sq1 : String} {m1 : Move} {sq2 : String}
    {m2 : Move} {c : Bool} (h : castleCond s sq1 m1 sq2 m2 = some c) :
    (c = true ↔ (s.board.piece_at_square_name sq1 = none ∧
      s.move_would_put_self_in_check m1 = some false ∧
      s.board.piece_at_square_name sq2 = none ∧
      s.move_would_put_self_in_check m2 = some false)) := by
  unfold castleCond at h
  by_cases hA : (s.board.piece_at_square_name sq1).isSome = true
  · rw [if_pos hA] at h
    obtain rfl := (Option.some.inj h).symm
    constructor
    · intro hx
      exact Bool.noConfusion hx
    · rintro ⟨hnone, -⟩
      rw [hnone] at hA
      exact Bool.noConfusion hA
  · have hA' : s.board.piece_at_square_name sq1 = none :=
      Option.not_isSome_iff_eq_none.mp hA
    rw [if_neg hA] at h
    rcases hm1 : s.move_would_put_self_in_check m1 with _ | c1
    · rw [hm1] at h
      exact Option.noConfusion h
    rw [hm1] at h
    simp only [] at h
    cases c1 with
    | true =>
      rw [if_pos rfl] at h
      obtain rfl := (Option.some.inj h).symm
      constructor
      · intro hx
        exact Bool.noConfusion hx
      · rintro ⟨-, hmw, -⟩
        exact Bool.noConfusion (Option.some.inj hmw)
    | false =>
      rw [if_neg Bool.false_ne_true] at h
      by_cases hB : (s.board.piece_at_square_name sq2).isSome = true
      · rw [if_pos hB] at h
        obtain rfl := (Option.some.inj h).symm
        constructor
        · intro hx
          exact Bool.noConfusion hx
        · rintro ⟨-, -, hnone2, -⟩
          rw [hnone2] at hB
          exact Bool.noConfusion hB
      · have hB' : s.board.piece_at_square_name sq2 = none :=
          Option.not_isSome_iff_eq_none.mp hB
        rw [if_neg hB] at h
        rcases hm2 : s.move_would_put_self_in_check m2 with _ | c2
        · rw [hm2] at h
          exact Option.noConfusion h
        rw [hm2] at h
        obtain rfl := (Option.some.inj h).symm
        cases c2 with
        | false =>
          constructor
          · intro _
            exact ⟨hA', rfl, hB', rfl⟩
          · intro _
            rfl
        | true =>
          constructor
          · intro hx
            exact Bool.noConfusion hx
          · rintro ⟨-, -, -, hmw⟩
            exact Bool.noConfusion (Option.some.inj hmw)

/-- Any move produced by the kingside wing passed its own
`move_would_put_self_in_check` test. -/
theorem castle_wing_mem_k {s : GameState} {R : Bool} {a b : String} {ma mb : Move}
    {ks : List Move}
    (h : (if R then
        match castleCond s a ma b mb with
        | none => none
        | some c => some (if c then [mb] else [])
      else some []) = some ks)
    {m : Move} (hm : m ∈ ks) : s.move_would_put_self_in_check m = some false := by
  cases R with
  | false =>
    rw [if_neg Bool.false_ne_true] at h
    obtain rfl := (Option.some.inj h).symm
    exact absurd hm (List.not_mem_nil m)
  | true =>
    rw [if_pos rfl] at h
    rcases hcc : castleCond s a ma b mb with _ | c
    · rw [hcc] at h
      exact Option.noConfusion h
    rw [hcc] at h
    simp only [] at h
    obtain rfl := (Option.some.inj h).symm
    cases c with
    | false => exact absurd hm (by simp)
    | true =>
      rw [if_pos rfl] at hm
      rw [List.mem_singleton.mp hm]
      exact ((castleCond_eq_some hcc).mp rfl).2.2.2

/-- The kingside wing produces nothing or exactly its king move. -/
theorem castle_wing_k_cases {s : GameState} {R : Bool} {a b : String} {ma mb : Move}
    {ks : List Move}
    (h : (if R then
        match castleCond s a ma b mb with
        | none => none
        | some c => some (if c then [mb] else [])
      else some []) = some ks) : ks = [] ∨ ks = [mb] := by
  cases R with
  | false =>
    rw [if_neg Bool.false_ne_true] at h
    exact Or.inl (Option.some.inj h).symm
  | true =>
    rw [if_pos rfl] at h
    rcases hcc : castleCond s a ma b mb with _ | c
    · rw [hcc] at h
      exact Option.noConfusion h
    rw [hcc] at h
    simp only [] at h
    obtain rfl := (Option.some.inj h).symm
    cases c with
    | false => exact Or.inl (by simp)
    | true => exact Or.inr (by simp)

/-- Membership of the queenside king move in the queenside wing,
characterized by the five source-code conditions: the right is set,
the d- and c-file squares are empty and safe to cross, and the b-file
square is empty (emptiness only — it is never check-tested). -/
theorem castle_wing_q_iff {s : GameState} {R : Bool} {a b bq : String} {ma mb : Move}
    {qs : List Move}
    (h : (if R then
        match castleCond s a ma b mb with
        | none => none
        | some x => some (if x && !(s.board.piece_at_square_name bq).isSome then [mb] else [])
      else some []) = some qs) :
    (mb ∈ qs ↔ (R = true ∧ s.board.piece_at_square_name a = none ∧
      s.move_would_put_self_in_check ma = some false ∧
      s.board.piece_at_square_name b = none ∧
      s.move_would_put_self_in_check mb = some false ∧
      s.board.piece_at_square_name bq = none)) := by
  cases R with
  | false =>
    rw [if_neg Bool.false_ne_true] at h
    obtain rfl := (Option.some.inj h).symm
    simp
  | true =>
    rw [if_pos rfl] at h
    rcases hcc : castleCond s a ma b mb with _ | x
    · rw [hcc] at h
      exact Option.noConfusion h
    rw [hcc] at h
    simp only [] at h
    obtain rfl := (Option.some.inj h).symm
    cases x with
    | false =>
      constructor
      · intro hmem
        exfalso
        simp only [Bool.false_and, Bool.false_eq_true, if_false] at hmem
        exact absurd hmem (List.not_mem_nil mb)
      · rintro ⟨-, ha, hma, hb, hmb, -⟩
        exact Bool.noConfusion ((castleCond_eq_some hcc).mpr ⟨ha, hma, hb, hmb⟩)
    | true =>
      by_cases hbq : s.board.piece_at_square_name bq = none
      · have hcond : (true && !(s.board.piece_at_square_name bq).isSome) = true := by
          rw [hbq]
          rfl
        rw [hcond]
        constructor
        · intro _
          obtain ⟨ha, hma, hb, hmb⟩ := (castleCond_eq_some hcc).mp rfl
          exact ⟨rfl, ha, hma, hb, hmb, hbq⟩
        · intro _
          rw [if_pos rfl]
          exact List.mem_singleton.mpr rfl
      · have hsome : (s.board.piece_at_square_name bq).isSome = true :=
          Option.isSome_iff_ne_none.mpr hbq
        have hcond : (true && !(s.board.piece_at_square_name bq).isSome) = false := by
          rw [hsome]
          rfl
        rw [hcond]
        constructor
        · intro hmem
          exfalso
          simp only [Bool.false_eq_true, if_false] at hmem
          exact absurd hmem (List.not_mem_nil mb)
        · rintro ⟨-, -, -, -, -, hbqnone⟩
          exact absurd hbqnone hbq

theorem filterNotSelfCheck_mem {s : GameState} {cs : List Move} {l : List Move}
    (h : filterNotSelfCheck s cs = some l) {m : Move} (hm : m ∈ l) :
    s.move_would_put_self_in_check m = some false := by
  induction cs generalizing l with
  | nil =>
    unfold filterNotSelfCheck at h
    obtain rfl := (Option.some.inj h).symm
    exact absurd hm (List.not_mem_nil m)
  | cons candidate rest ih =>
    unfold filterNotSelfCheck at h
    rcases hw : s.move_would_put_self_in_check candidate with _ | c
    · rw [hw] at h
      exact Option.noConfusion h
    rw [hw] at h
    cases c with
    | true => exact ih h hm
    | false =>
      simp only [] at h
      rcases hr : filterNotSelfCheck s rest with _ | r
      · rw [hr] at h
        exact Option.noConfusion h
      rw [hr] at h
      simp only [] at h
      obtain rfl := (Option.some.inj h).symm
      rcases List.mem_cons.mp hm with rfl | hm'
      · exact hw
      · exact ih hr hm'

/-- Queenside analogue of `castle_wing_mem_k`. -/
theorem castle_wing_mem_q {s : GameState} {R : Bool} {a b bq : String} {ma mb : Move}
    {qs : List Move}
    (h : (if R then
        match castleCond s a ma b mb with
        | none => none
        | some x => some (if x && !(s.board.piece_at_square_name bq).isSome then [mb] else [])
      else some []) = some qs)
    {m : Move} (hm : m ∈ qs) : s.move_would_put_self_in_check m = some false := by
  cases R with
  | false =>
    rw [if_neg Bool.false_ne_true] at h
    obtain rfl := (Option.some.inj h).symm
    exact absurd hm (List.not_mem_nil m)
  | true =>
    rw [if_pos rfl] at h
    rcases hcc : castleCond s a ma b mb with _ | x
    · rw [hcc] at h
      exact Option.noConfusion h
    rw [hcc] at h
    simp only [] at h
    obtain rfl := (Option.some.inj h).symm
    by_cases hxc : (x && !(s.board.piece_at_square_name bq).isSome) = true
    · rw [if_pos hxc] at hm
      rw [List.mem_singleton.mp hm]
      exact ((castleCond_eq_some hcc).mp ((Bool.and_eq_true _ _).mp hxc).1).2.2.2
    · rw [if_neg hxc] at hm
      exact absurd hm (List.not_mem_nil m)

/-- One colour branch of `get_castling_moves`: every emitted move
passed `move_would_put_self_in_check`. -/
theorem castle_branch_mem {s : GameState} {l : List Move} {m : Move}
    {Rk Rq : Bool} {fsq gsq dsq csq bsq : String} {kf kg kd kc : Move}
    (h : (match (if Rk then
            match castleCond s fsq kf gsq kg with
            | none => none
            | some c => some (if c then [kg] else [])
          else some []) with
        | none => none
        | some kingside =>
          match (if Rq then
              match castleCond s dsq kd csq kc with
              | none => none
              | some x =>
                some (if x && !(s.board.piece_at_square_name bsq).isSome then [kc] else [])
            else some []) with
          | none => none
          | some queenside => some (kingside ++ queenside)) = some l)
    (hm : m ∈ l) : s.move_would_put_self_in_check m = some false := by
  rcases hko : (if Rk then
      match castleCond s fsq kf gsq kg with
      | none => none
      | some c => some (if c then [kg] else [])
    else some []) with _ | ks
  · rw [hko] at h
    exact Option.noConfusion h
  rw [hko] at h
  simp only [] at h
  rcases hqo : (if Rq then
      match castleCond s dsq kd csq kc with
      | none => none
      | some x => some (if x && !(s.board.piece_at_square_name bsq).isSome then [kc] else [])
    else some []) with _ | qs
  · rw [hqo] at h
    exact Option.noConfusion h
  rw [hqo] at h
  simp only [] at h
  obtain rfl := (Option.some.inj h).symm
  rcases List.mem_append.mp hm with hm' | hm'
  · exact castle_wing_mem_k hko hm'
  · exact castle_wing_mem_q hqo hm'

/-- Every move emitted by `get_castling_moves` passed its own
self-check test. -/
theorem mem_castling_not_self_check {s : GameState} {l : List Move}
    (h : s.get_castling_moves = some l) {m : Move} (hm : m ∈ l) :
    s.move_would_put_self_in_check m = some false := by
  unfold GameState.get_castling_moves at h
  by_cases hchk : s.is_in_check s.side_to_move = true
  · rw [if_pos hchk] at h
    obtain rfl := (Option.some.inj h).symm
    exact absurd hm (List.not_mem_nil m)
  rw [if_neg hchk] at h
  cases hstm : s.side_to_move with
  | White =>
    rw [hstm] at h
    simp only [] at h
    rcases hkp : s.board.piece_at (Board.coordinates_from_name r"e1") with _ | piece
    · rw [hkp] at h
      obtain rfl := (Option.some.inj h).symm
      exact absurd hm (List.not_mem_nil m)
    rw [hkp] at h
    simp only [] at h
    by_cases hpt : piece.piece_type = PieceType.King
    · rw [if_pos hpt] at h
      cases hps : piece.side with
      | White =>
        rw [hps, from_str_e1f1, from_str_e1g1, from_str_e1d1, from_str_e1c1] at h
        simp only [] at h
        exact castle_branch_mem h hm
      | Black =>
        rw [hps, from_str_e8f8, from_str_e8g8, from_str_e8d8, from_str_e8c8] at h
        simp only [] at h
        exact castle_branch_mem h hm
    · rw [if_neg hpt] at h
      obtain rfl := (Option.some.inj h).symm
      exact absurd hm (List.not_mem_nil m)
  | Black =>
    rw [hstm] at h
    simp only [] at h
    rcases hkp : s.board.piece_at (Board.coordinates_from_name r"e8") with _ | piece
    · rw [hkp] at h
      obtain rfl := (Option.some.inj h).symm
      exact absurd hm (List.not_mem_nil m)
    rw [hkp] at h
    simp only [] at h
    by_cases hpt : piece.piece_type = PieceType.King
    · rw [if_pos hpt] at h
      cases hps : piece.side with
      | White =>
        rw [hps, from_str_e1f1, from_str_e1g1, from_str_e1d1, from_str_e1c1] at h
        simp only [] at h
        exact castle_branch_mem h hm
      | Black =>
        rw [hps, from_str_e8f8, from_str_e8g8, from_str_e8d8, from_str_e8c8] at h
        simp only [] at h
        exact castle_branch_mem h hm
    · rw [if_neg hpt] at h
      obtain rfl := (Option.some.inj h).symm
      exact absurd hm (List.not_mem_nil m)

/-- C1: every element of `get_legal_moves()` — the self-check-filtered
pseudo-legal moves and the castling moves alike — passed
`move_would_put_self_in_check`, i.e. applying it to a copy of the
state (`make_move_on_copy`) yields a state in which the side that made
the move is not in check. -/
theorem legal_moves_leave_mover_safe
    (s : GameState) (l : List Move) (m : Move)
    (hl : s.get_legal_moves = some l) (hm : m ∈ l) :
    s.move_would_put_self_in_check m = some false ∧
      (∀ p s', s.board.piece_at m.«from» = some p → s.make_move_on_copy m = some s' →
        s'.is_in_check p.side = false) := by
  have hbase : s.move_would_put_self_in_check m = some false := by
    unfold GameState.get_legal_moves at hl
    rcases hf : filterNotSelfCheck s s.get_possible_moves with _ | filtered
    · rw [hf] at hl
      exact Option.noConfusion hl
    rw [hf] at hl
    simp only [] at hl
    rcases hc : s.get_castling_moves with _ | castles
    · rw [hc] at hl
      exact Option.noConfusion hl
    rw [hc] at hl
    simp only [] at hl
    obtain rfl := (Option.some.inj hl).symm
    rcases List.mem_append.mp hm with hm' | hm'
    · exact filterNotSelfCheck_mem hf hm'
    · exact mem_castling_not_self_check hc hm'
  refine ⟨hbase, ?_⟩
  intro p s' hp hs'
  unfold GameState.move_would_put_self_in_check at hbase
  rw [hp] at hbase
  simp only [] at hbase
  rw [hs'] at hbase
  simp only [] at hbase
  exact Option.some.inj hbase

/-- C1 (witness): the generated queenside castle of the fixture passed
the self-check filter. -/
theorem legal_moves_leave_mover_safe_witness :
    castleState.move_would_put_self_in_check (Move.new (0, 4) (0, 2)) = some false :=
  (legal_moves_leave_mover_safe castleState castleLegal (Move.new (0, 4) (0, 2))
    (by decide) (by decide)).1

/-- One colour branch of `get_castling_moves`: the queenside king move
is emitted iff the right is set, the d-, c- and b-file squares pass
their tests, with the b-file square tested for emptiness only. -/
theorem castle_branch_q_iff {s : GameState} {l : List Move}
    {Rk Rq : Bool} {fsq gsq dsq csq bsq : String} {kf kg kd kc : Move}
    (hne : kg ≠ kc)
    (h : (match (if Rk then
            match castleCond s fsq kf gsq kg with
            | none => none
            | some c => some (if c then [kg] else [])
          else some []) with
        | none => none
        | some kingside =>
          match (if Rq then
              match castleCond s dsq kd csq kc with
              | none => none
              | some x =>
                some (if x && !(s.board.piece_at_square_name bsq).isSome then [kc] else [])
            else some []) with
          | none => none
          | some queenside => some (kingside ++ queenside)) = some l) :
    (kc ∈ l ↔ (Rq = true ∧ s.board.piece_at_square_name dsq = none ∧
      s.move_would_put_self_in_check kd = some false ∧
      s.board.piece_at_square_name csq = none ∧
      s.move_would_put_self_in_check kc = some false ∧
      s.board.piece_at_square_name bsq = none)) := by
  rcases hko : (if Rk then
      match castleCond s fsq kf gsq kg with
      | none => none
      | some c => some (if c then [kg] else [])
    else some []) with _ | ks
  · rw [hko] at h
    exact Option.noConfusion h
  rw [hko] at h
  simp only [] at h
  rcases hqo : (if Rq then
      match castleCond s dsq kd csq kc with
      | none => none
      | some x => some (if x && !(s.board.piece_at_square_name bsq).isSome then [kc] else [])
    else some []) with _ | qs
  · rw [hqo] at h
    exact Option.noConfusion h
  rw [hqo] at h
  simp only [] at h
  obtain rfl := (Option.some.inj h).symm
  have hks : kc ∉ ks := by
    rcases castle_wing_k_cases hko with rfl | rfl
    · exact List.not_mem_nil kc
    · intro hmem
      exact hne (List.mem_singleton.mp hmem).symm
  constructor
  · intro hmem
    rcases List.mem_append.mp hmem with hmem' | hmem'
    · exact absurd hmem' hks
    · exact (castle_wing_q_iff hqo).mp hmem'
  · intro hconds
    exact List.mem_append.mpr (Or.inr ((castle_wing_q_iff hqo).mpr hconds))

/-- C5: when the side to move has its King on the back-rank e-file
square, the queenside castling move (e- to c-file) is generated iff
the queenside right is set, the side is not in check, the b-, c- and
d-file back-rank squares are empty, and the king moves to the d- and
c-file squares each pass the self-check test; the b-file square is
required to be empty but is never check-tested. -/
theorem queenside_castle_generation_iff
    (s : GameState) (l : List Move)
    (hk : s.board.piece_at (backRank s.side_to_move, 4) =
      some { side := s.side_to_move, piece_type := PieceType.King })
    (hl : s.get_castling_moves = some l) :
    (Move.new (backRank s.side_to_move, 4) (backRank s.side_to_move, 2) ∈ l ↔
      (queensideRight s.castling_availability s.side_to_move = true ∧
        s.is_in_check s.side_to_move = false ∧
        s.board.piece_at (backRank s.side_to_move, 1) = none ∧
        s.board.piece_at (backRank s.side_to_move, 2) = none ∧
        s.board.piece_at (backRank s.side_to_move, 3) = none ∧
        s.move_would_put_self_in_check
          (Move.new (backRank s.side_to_move, 4) (backRank s.side_to_move, 3)) = some false ∧
        s.move_would_put_self_in_check
          (Move.new (backRank s.side_to_move, 4) (backRank s.side_to_move, 2)) = some false)) := by
  unfold GameState.get_castling_moves at hl
  by_cases hchk : s.is_in_check s.side_to_move = true
  · rw [if_pos hchk] at hl
    obtain rfl := (Option.some.inj hl).symm
    constructor
    · intro hmem
      exact absurd hmem (List.not_mem_nil _)
    · rintro ⟨-, hfalse, -⟩
      rw [hchk] at hfalse
      exact Bool.noConfusion hfalse
  · have hchk' : s.is_in_check s.side_to_move = false := by
      revert hchk
      cases s.is_in_check s.side_to_move <;> simp
    rw [if_neg hchk] at hl
    cases hstm : s.side_to_move with
    | White =>
      rw [hstm] at hl
      simp only [] at hl
      rw [hstm] at hk hchk'
      simp only [backRank] at hk
      have he1 : Board.coordinates_from_name r"e1" = ((0 : Int), (4 : Int)) := by decide
      rw [he1, hk] at hl
      simp only [] at hl
      rw [if_pos trivial] at hl
      rw [from_str_e1f1, from_str_e1g1, from_str_e1d1, from_str_e1c1] at hl
      simp only [] at hl
      have hiff := castle_branch_q_iff
        (show Move.new ((0 : Int), (4 : Int)) ((0 : Int), (6 : Int)) ≠
            Move.new ((0 : Int), (4 : Int)) ((0 : Int), (2 : Int)) by decide) hl
      have hd1 : s.board.piece_at_square_name r"d1" = s.board.piece_at ((0 : Int), (3 : Int)) := rfl
      have hc1 : s.board.piece_at_square_name r"c1" = s.board.piece_at ((0 : Int), (2 : Int)) := rfl
      have hb1 : s.board.piece_at_square_name r"b1" = s.board.piece_at ((0 : Int), (1 : Int)) := rfl
      rw [hd1, hc1, hb1] at hiff
      simp only [backRank, queensideRight]
      rw [hiff]
      constructor
      · rintro ⟨hr, hd, hkd, hc, hkc, hb⟩
        exact ⟨hr, hchk', hb, hc, hd, hkd, hkc⟩
      · rintro ⟨hr, -, hb, hc, hd, hkd, hkc⟩
        exact ⟨hr, hd, hkd, hc, hkc, hb⟩
    | Black =>
      rw [hstm] at hl
      simp only [] at hl
      rw [hstm] at hk hchk'
      simp only [backRank] at hk
      have he8 : Board.coordinates_from_name r"e8" = ((7 : Int), (4 : Int)) := by decide
      rw [he8, hk] at hl
      simp only [] at hl
      rw [if_pos trivial] at hl
      rw [from_str_e8f8, from_str_e8g8, from_str_e8d8, from_str_e8c8] at hl
      simp only [] at hl
      have hiff := castle_branch_q_iff
        (show Move.new ((7 : Int), (4 : Int)) ((7 : Int), (6 : Int)) ≠
            Move.new ((7 : Int), (4 : Int)) ((7 : Int), (2 : Int)) by decide) hl
      have hd8 : s.board.piece_at_square_name r"d8" = s.board.piece_at ((7 : Int), (3 : Int)) := rfl
      have hc8 : s.board.piece_at_square_name r"c8" = s.board.piece_at ((7 : Int), (2 : Int)) := rfl
      have hb8 : s.board.piece_at_square_name r"b8" = s.board.piece_at ((7 : Int), (1 : Int)) := rfl
      rw [hd8, hc8, hb8] at hiff
      simp only [backRank, queensideRight]
      rw [hiff]
      constructor
      · rintro ⟨hr, hd, hkd, hc, hkc, hb⟩
        exact ⟨hr, hchk', hb, hc, hd, hkd, hkc⟩
      · rintro ⟨hr, -, hb, hc, hd, hkd, hkc⟩
        exact ⟨hr, hd, hkd, hc, hkc, hb⟩

/-- C5 (witness): on the fixture with only the White queenside right,
e1-c1 is generated. -/
theorem queenside_castle_generation_iff_witness :
    Move.new (0, 4) (0, 2) ∈ castleList :=
  (queenside_castle_generation_iff castleState castleList (by decide) (by decide)).mpr
    (by decide)

/-! C10: promotion generation. -/

theorem slideLoop_promo {s : GameState} {piece : Piece} {origin direction : Int × Int} :
    ∀ (fuel : Nat) (dist : Int) (m : Move), m ∈ slideLoop s piece origin direction fuel dist →
      m.promo = none := by
  intro fuel
  induction fuel with
  | zero =>
    intro dist m hm
    exact absurd hm (List.not_mem_nil m)
  | succ k ih =>
    intro dist m hm
    unfold slideLoop at hm
    by_cases hb : Board.within_bounds
        (origin.1 + direction.1 * dist, origin.2 + direction.2 * dist) = true
    · rw [if_pos hb] at hm
      rcases hq : s.board.piece_at
          (origin.1 + direction.1 * dist, origin.2 + direction.2 * dist) with _ | other
      · rw [hq] at hm
        simp only [] at hm
        rcases List.mem_cons.mp hm with rfl | hm'
        · rfl
        · exact ih (dist + 1) m hm'
      · rw [hq] at hm
        simp only [] at hm
        by_cases hside : (decide (piece.side ≠ other.side)) = true
        · rw [if_pos hside] at hm
          rw [List.mem_singleton.mp hm]
          rfl
        · rw [if_neg hside] at hm
          exact absurd hm (List.not_mem_nil m)
    · rw [if_neg hb] at hm
      exact absurd hm (List.not_mem_nil m)

theorem get_possible_moves_in_direction_promo {s : GameState} {origin direction : Int × Int}
    {maxd : Nat} {m : Move} (hm : m ∈ s.get_possible_moves_in_direction origin direction maxd) :
    m.promo = none := by
  unfold GameState.get_possible_moves_in_direction at hm
  rcases hp : s.board.piece_at origin with _ | piece
  · rw [hp] at hm
    simp only [] at hm
    exact absurd hm (List.not_mem_nil m)
  · rw [hp] at hm
    simp only [] at hm
    exact slideLoop_promo maxd 1 m hm

theorem pawnForwardMoves_promo {s : GameState} {piece : Piece} {current : Int × Int} {m : Move}
    (hm : m ∈ pawnForwardMoves s piece current) :
    m.promo = none ∨ ∃ k, k ∈ promoKinds ∧ m.promo = some k := by
  unfold pawnForwardMoves at hm
  simp only [] at hm
  rcases hq : s.board.piece_at (current.1 +
      (match piece.side with | Side.White => 1 | Side.Black => -1), current.2) with _ | other
  · rw [hq] at hm
    simp only [] at hm
    by_cases hs : (!Board.within_bounds (current.1 +
        (match piece.side with | Side.White => 1 | Side.Black => -1) * 2, current.2)) = true
    · rw [if_pos hs] at hm
      obtain ⟨k, hk, rfl⟩ := List.mem_map.mp hm
      exact Or.inr ⟨k, hk, rfl⟩
    · rw [if_neg hs] at hm
      rcases List.mem_cons.mp hm with rfl | hm'
      · exact Or.inl rfl
      · by_cases hbb : Board.within_bounds (current.1 +
            (match piece.side with | Side.White => 1 | Side.Black => -1) * 2, current.2) = true
        · rw [if_pos hbb] at hm'
          rcases hq2 : s.board.piece_at (current.1 +
              (match piece.side with | Side.White => 1 | Side.Black => -1) * 2, current.2)
            with _ | o2
          · rw [hq2] at hm'
            simp only [] at hm'
            by_cases hir : (match piece.side with
                | Side.White => decide (current.1 = 1)
                | Side.Black => decide (current.1 = 6)) = true
            · rw [if_pos hir] at hm'
              rw [List.mem_singleton.mp hm']
              exact Or.inl rfl
            · rw [if_neg hir] at hm'
              exact absurd hm' (List.not_mem_nil m)
          · rw [hq2] at hm'
            simp only [] at hm'
            exact absurd hm' (List.not_mem_nil m)
        · rw [if_neg hbb] at hm'
          exact absurd hm' (List.not_mem_nil m)
  · rw [hq] at hm
    simp only [] at hm
    exact absurd hm (List.not_mem_nil m)

theorem pawnDiagonalMoves_promo {s : GameState} {piece : Piece} {current target : Int × Int}
    {os : Bool} {m : Move} (hm : m ∈ pawnDiagonalMoves s piece current target os) :
    m.promo = none ∨ ∃ k, k ∈ promoKinds ∧ m.promo = some k := by
  unfold pawnDiagonalMoves at hm
  by_cases hb : Board.within_bounds target = true
  · rw [if_pos hb] at hm
    rcases hq : s.board.piece_at target with _ | other
    · rw [hq] at hm
      simp only [] at hm
      rcases he : s.en_passant_square with _ | ep
      · rw [he] at hm
        simp only [] at hm
        exact absurd hm (List.not_mem_nil m)
      · rw [he] at hm
        simp only [] at hm
        by_cases heq : ep = target
        · rw [if_pos heq] at hm
          rw [List.mem_singleton.mp hm]
          exact Or.inl rfl
        · rw [if_neg heq] at hm
          exact absurd hm (List.not_mem_nil m)
    · rw [hq] at hm
      simp only [] at hm
      by_cases hside : (decide (piece.side ≠ other.side)) = true
      · rw [if_pos hside] at hm
        cases os with
        | true =>
          rw [if_pos rfl] at hm
          obtain ⟨k, hk, rfl⟩ := List.mem_map.mp hm
          exact Or.inr ⟨k, hk, rfl⟩
        | false =>
          rw [if_neg Bool.false_ne_true] at hm
          rw [List.mem_singleton.mp hm]
          exact Or.inl rfl
      · rw [if_neg hside] at hm
        exact absurd hm (List.not_mem_nil m)
  · rw [if_neg hb] at hm
    exact absurd hm (List.not_mem_nil m)

theorem pawnForwardMoves_to_file {s : GameState} {piece : Piece} {current : Int × Int}
    {m : Move} (hm : m ∈ pawnForwardMoves s piece current) : m.«to».2 = current.2 := by
  unfold pawnForwardMoves at hm
  simp only [] at hm
  rcases hq : s.board.piece_at (current.1 +
      (match piece.side with | Side.White => 1 | Side.Black => -1), current.2) with _ | other
  · rw [hq] at hm
    simp only [] at hm
    by_cases hs : (!Board.within_bounds (current.1 +
        (match piece.side with | Side.White => 1 | Side.Black => -1) * 2, current.2)) = true
    · rw [if_pos hs] at hm
      obtain ⟨k, hk, rfl⟩ := List.mem_map.mp hm
      rfl
    · rw [if_neg hs] at hm
      rcases List.mem_cons.mp hm with rfl | hm'
      · rfl
      · by_cases hbb : Board.within_bounds (current.1 +
            (match piece.side with | Side.White => 1 | Side.Black => -1) * 2, current.2) = true
        · rw [if_pos hbb] at hm'
          rcases hq2 : s.board.piece_at (current.1 +
              (match piece.side with | Side.White => 1 | Side.Black => -1) * 2, current.2)
            with _ | o2
          · rw [hq2] at hm'
            simp only [] at hm'
            by_cases hir : (match piece.side with
                | Side.White => decide (current.1 = 1)
                | Side.Black => decide (current.1 = 6)) = true
            · rw [if_pos hir] at hm'
              rw [List.mem_singleton.mp hm']
              rfl
            · rw [if_neg hir] at hm'
              exact absurd hm' (List.not_mem_nil m)
          · rw [hq2] at hm'
            simp only [] at hm'
            exact absurd hm' (List.not_mem_nil m)
        · rw [if_neg hbb] at hm'
          exact absurd hm' (List.not_mem_nil m)
  · rw [hq] at hm
    simp only [] at hm
    exact absurd hm (List.not_mem_nil m)

theorem pawnDiagonalMoves_to {s : GameState} {piece : Piece} {current target : Int × Int}
    {os : Bool} {m : Move} (hm : m ∈ pawnDiagonalMoves s piece current target os) :
    m.«to» = target := by
  unfold pawnDiagonalMoves at hm
  by_cases hb : Board.within_bounds target = true
  · rw [if_pos hb] at hm
    rcases hq : s.board.piece_at target with _ | other
    · rw [hq] at hm
      simp only [] at hm
      rcases he : s.en_passant_square with _ | ep
      · rw [he] at hm
        simp only [] at hm
        exact absurd hm (List.not_mem_nil m)
      · rw [he] at hm
        simp only [] at hm
        by_cases heq : ep = target
        · rw [if_pos heq] at hm
          rw [List.mem_singleton.mp hm]
          rfl
        · rw [if_neg heq] at hm
          exact absurd hm (List.not_mem_nil m)
    · rw [hq] at hm
      simp only [] at hm
      by_cases hside : (decide (piece.side ≠ other.side)) = true
      · rw [if_pos hside] at hm
        cases os with
        | true =>
          rw [if_pos rfl] at hm
          obtain ⟨k, hk, rfl⟩ := List.mem_map.mp hm
          rfl
        | false =>
          rw [if_neg Bool.false_ne_true] at hm
          rw [List.mem_singleton.mp hm]
          rfl
      · rw [if_neg hside] at hm
        exact absurd hm (List.not_mem_nil m)
  · rw [if_neg hb] at hm
    exact absurd hm (List.not_mem_nil m)

theorem filter_to_eq_nil {l : List Move} {t : Int × Int}
    (h : ∀ m ∈ l, m.«to» ≠ t) :
    l.filter (fun mv => decide (mv.«to» = t)) = [] := by
  apply List.filter_eq_nil_iff.mpr
  intro a ha
  simp only [decide_eq_true_eq]
  exact h a ha

/-- Exactly the four promotion moves target a far-rank landing square
of a pawn push or diagonal capture. -/
theorem pawn_promotion_filter
    (s : GameState) (current : Int × Int) (side : Side) (t : Int × Int)
    (hp : s.board.piece_at current = some { side := side, piece_type := PieceType.Pawn })
    (hwt : Board.within_bounds t = true)
    (hfar : t.1 = farRank side)
    (hcase : (t = (current.1 + pawnDirection side, current.2) ∧ s.board.piece_at t = none) ∨
      ((t = (current.1 + pawnDirection side, current.2 - 1) ∨
        t = (current.1 + pawnDirection side, current.2 + 1)) ∧
       (∃ q, s.board.piece_at t = some q ∧ q.side ≠ side))) :
    (s.get_possible_moves_from current).filter (fun mv => decide (mv.«to» = t)) =
      [Move.new_with_promo current t PieceType.Knight,
       Move.new_with_promo current t PieceType.Bishop,
       Move.new_with_promo current t PieceType.Rook,
       Move.new_with_promo current t PieceType.Queen] := by
  cases side with
  | White =>
    simp only [farRank] at hfar
    simp only [pawnDirection] at hcase
    have ht1 : t.1 = current.1 + 1 := by
      rcases hcase with ⟨rfl, -⟩ | ⟨rfl | rfl, -⟩ <;> rfl
    have hos : (!Board.within_bounds (current.1 + 1 * 2, current.2)) = true := by
      simp only [Board.within_bounds, Bool.not_eq_true', Bool.and_eq_false_iff,
        decide_eq_false_iff_not, not_lt, not_le]
      simp only [Board.within_bounds, Bool.and_eq_true, decide_eq_true_eq] at hwt
      omega
    unfold GameState.get_possible_moves_from
    rw [hp]
    simp only []
    rw [List.filter_append, List.filter_append]
    rcases hcase with ⟨rfl, hempty⟩ | ⟨hdiag, hqex⟩
    · have hfwd : (pawnForwardMoves s { side := Side.White, piece_type := PieceType.Pawn }
          current).filter (fun mv => decide (mv.«to» = (current.1 + 1, current.2))) =
          [Move.new_with_promo current (current.1 + 1, current.2) PieceType.Knight,
           Move.new_with_promo current (current.1 + 1, current.2) PieceType.Bishop,
           Move.new_with_promo current (current.1 + 1, current.2) PieceType.Rook,
           Move.new_with_promo current (current.1 + 1, current.2) PieceType.Queen] := by
        unfold pawnForwardMoves
        simp only []
        rw [hempty]
        simp only []
        rw [hos, if_pos rfl]
        simp [promoKinds, Move.new_with_promo]
      have hdl : (pawnDiagonalMoves s { side := Side.White, piece_type := PieceType.Pawn }
          current (current.1 + 1, current.2 - 1)
          (!Board.within_bounds (current.1 + 1 * 2, current.2))).filter
          (fun mv => decide (mv.«to» = (current.1 + 1, current.2))) = [] := by
        refine filter_to_eq_nil ?_
        intro mv hmv
        rw [pawnDiagonalMoves_to hmv]
        intro hcontra
        have h2 : current.2 - 1 = current.2 := congrArg Prod.snd hcontra
        omega
      have hdr : (pawnDiagonalMoves s { side := Side.White, piece_type := PieceType.Pawn }
          current (current.1 + 1, current.2 + 1)
          (!Board.within_bounds (current.1 + 1 * 2, current.2))).filter
          (fun mv => decide (mv.«to» = (current.1 + 1, current.2))) = [] := by
        refine filter_to_eq_nil ?_
        intro mv hmv
        rw [pawnDiagonalMoves_to hmv]
        intro hcontra
        have h2 : current.2 + 1 = current.2 := congrArg Prod.snd hcontra
        omega
      rw [hfwd, hdl, hdr]
      simp
    · obtain ⟨q, hq, hqs⟩ := hqex
      have hsd : (decide (({ side := Side.White, piece_type := PieceType.Pawn } : Piece).side
          ≠ q.side)) = true := by
        simp only [decide_eq_true_eq]
        exact Ne.symm hqs
      rcases hdiag with rfl | rfl
      · have hfwd : (pawnForwardMoves s { side := Side.White, piece_type := PieceType.Pawn }
            current).filter
            (fun mv => decide (mv.«to» = (current.1 + 1, current.2 - 1))) = [] := by
          refine filter_to_eq_nil ?_
          intro mv hmv
          have hf := pawnForwardMoves_to_file hmv
          intro hcontra
          rw [hcontra] at hf
          have h2 : current.2 - 1 = current.2 := hf
          omega
        have hdl : (pawnDiagonalMoves s { side := Side.White, piece_type := PieceType.Pawn }
            current (current.1 + 1, current.2 - 1)
            (!Board.within_bounds (current.1 + 1 * 2, current.2))).filter
            (fun mv => decide (mv.«to» = (current.1 + 1, current.2 - 1))) =
            [Move.new_with_promo current (current.1 + 1, current.2 - 1) PieceType.Knight,
             Move.new_with_promo current (current.1 + 1, current.2 - 1) PieceType.Bishop,
             Move.new_with_promo current (current.1 + 1, current.2 - 1) PieceType.Rook,
             Move.new_with_promo current (current.1 + 1, current.2 - 1) PieceType.Queen] := by
          unfold pawnDiagonalMoves
          rw [if_pos hwt, hq]
          simp only []
          rw [if_pos hsd, hos, if_pos rfl]
          simp [promoKinds, Move.new_with_promo]
        have hdr : (pawnDiagonalMoves s { side := Side.White, piece_type := PieceType.Pawn }
            current (current.1 + 1, current.2 + 1)
            (!Board.within_bounds (current.1 + 1 * 2, current.2))).filter
            (fun mv => decide (mv.«to» = (current.1 + 1, current.2 - 1))) = [] := by
          refine filter_to_eq_nil ?_
          intro mv hmv
          rw [pawnDiagonalMoves_to hmv]
          intro hcontra
          have h2 : current.2 + 1 = current.2 - 1 := congrArg Prod.snd hcontra
          omega
        rw [hfwd, hdl, hdr]
        simp
      · have hfwd : (pawnForwardMoves s { side := Side.White, piece_type := PieceType.Pawn }
            current).filter
            (fun mv => decide (mv.«to» = (current.1 + 1, current.2 + 1))) = [] := by
          refine filter_to_eq_nil ?_
          intro mv hmv
          have hf := pawnForwardMoves_to_file hmv
          intro hcontra
          rw [hcontra] at hf
          have h2 : current.2 + 1 = current.2 := hf
          omega
        have hdl : (pawnDiagonalMoves s { side := Side.White, piece_type := PieceType.Pawn }
            current (current.1 + 1, current.2 - 1)
            (!Board.within_bounds (current.1 + 1 * 2, current.2))).filter
            (fun mv => decide (mv.«to» = (current.1 + 1, current.2 + 1))) = [] := by
          refine filter_to_eq_nil ?_
          intro mv hmv
          rw [pawnDiagonalMoves_to hmv]
          intro hcontra
          have h2 : current.2 - 1 = current.2 + 1 := congrArg Prod.snd hcontra
          omega
        have hdr : (pawnDiagonalMoves s { side := Side.White, piece_type := PieceType.Pawn }
            current (current.1 + 1, current.2 + 1)
            (!Board.within_bounds (current.1 + 1 * 2, current.2))).filter
            (fun mv => decide (mv.«to» = (current.1 + 1, current.2 + 1))) =
            [Move.new_with_promo current (current.1 + 1, current.2 + 1) PieceType.Knight,
             Move.new_with_promo current (current.1 + 1, current.2 + 1) PieceType.Bishop,
             Move.new_with_promo current (current.1 + 1, current.2 + 1) PieceType.Rook,
             Move.new_with_promo current (current.1 + 1, current.2 + 1) PieceType.Queen] := by
          unfold pawnDiagonalMoves
          rw [if_pos hwt, hq]
          simp only []
          rw [if_pos hsd, hos, if_pos rfl]
          simp [promoKinds, Move.new_with_promo]
        rw [hfwd, hdl, hdr]
        simp
  | Black =>
    simp only [farRank] at hfar
    simp only [pawnDirection] at hcase
    have ht1 : t.1 = current.1 + -1 := by
      rcases hcase with ⟨rfl, -⟩ | ⟨rfl | rfl, -⟩ <;> rfl
    have hos : (!Board.within_bounds (current.1 + -1 * 2, current.2)) = true := by
      simp only [Board.within_bounds, Bool.not_eq_true', Bool.and_eq_false_iff,
        decide_eq_false_iff_not, not_lt, not_le]
      simp only [Board.within_bounds, Bool.and_eq_true, decide_eq_true_eq] at hwt
      omega
    unfold GameState.get_possible_moves_from
    rw [hp]
    simp only []
    rw [List.filter_append, List.filter_append]
    rcases hcase with ⟨rfl, hempty⟩ | ⟨hdiag, hqex⟩
    · have hfwd : (pawnForwardMoves s { side := Side.Black, piece_type := PieceType.Pawn }
          current).filter (fun mv => decide (mv.«to» = (current.1 + -1, current.2))) =
          [Move.new_with_promo current (current.1 + -1, current.2) PieceType.Knight,
           Move.new_with_promo current (current.1 + -1, current.2) PieceType.Bishop,
           Move.new_with_promo current (current.1 + -1, current.2) PieceType.Rook,
           Move.new_with_promo current (current.1 + -1, current.2) PieceType.Queen] := by
        unfold pawnForwardMoves
        simp only []
        rw [hempty]
        simp only []
        rw [hos, if_pos rfl]
        simp [promoKinds, Move.new_with_promo]
      have hdl : (pawnDiagonalMoves s { side := Side.Black, piece_type := PieceType.Pawn }
          current (current.1 + -1, current.2 - 1)
          (!Board.within_bounds (current.1 + -1 * 2, current.2))).filter
          (fun mv => decide (mv.«to» = (current.1 + -1, current.2))) = [] := by
        refine filter_to_eq_nil ?_
        intro mv hmv
        rw [pawnDiagonalMoves_to hmv]
        intro hcontra
        have h2 : current.2 - 1 = current.2 := congrArg Prod.snd hcontra
        omega
      have hdr : (pawnDiagonalMoves s { side := Side.Black, piece_type := PieceType.Pawn }
          current (current.1 + -1, current.2 + 1)
          (!Board.within_bounds (current.1 + -1 * 2, current.2))).filter
          (fun mv => decide (mv.«to» = (current.1 + -1, current.2))) = [] := by
        refine filter_to_eq_nil ?_
        intro mv hmv
        rw [pawnDiagonalMoves_to hmv]
        intro hcontra
        have h2 : current.2 + 1 = current.2 := congrArg Prod.snd hcontra
        omega
      rw [hfwd, hdl, hdr]
      simp
    · obtain ⟨q, hq, hqs⟩ := hqex
      have hsd : (decide (({ side := Side.Black, piece_type := PieceType.Pawn } : Piece).side
          ≠ q.side)) = true := by
        simp only [decide_eq_true_eq]
        exact Ne.symm hqs
      rcases hdiag with rfl | rfl
      · have hfwd : (pawnForwardMoves s { side := Side.Black, piece_type := PieceType.Pawn }
            current).filter
            (fun mv => decide (mv.«to» = (current.1 + -1, current.2 - 1))) = [] := by
          refine filter_to_eq_nil ?_
          intro mv hmv
          have hf := pawnForwardMoves_to_file hmv
          intro hcontra
          rw [hcontra] at hf
          have h2 : current.2 - 1 = current.2 := hf
          omega
        have hdl : (pawnDiagonalMoves s { side := Side.Black, piece_type := PieceType.Pawn }
            current (current.1 + -1, current.2 - 1)
            (!Board.within_bounds (current.1 + -1 * 2, current.2))).filter
            (fun mv => decide (mv.«to» = (current.1 + -1, current.2 - 1))) =
            [Move.new_with_promo current (current.1 + -1, current.2 - 1) PieceType.Knight,
             Move.new_with_promo current (current.1 + -1, current.2 - 1) PieceType.Bishop,
             Move.new_with_promo current (current.1 + -1, current.2 - 1) PieceType.Rook,
             Move.new_with_promo current (current.1 + -1, current.2 - 1) PieceType.Queen] := by
          unfold pawnDiagonalMoves
          rw [if_pos hwt, hq]
          simp only []
          rw [if_pos hsd, hos, if_pos rfl]
          simp [promoKinds, Move.new_with_promo]
        have hdr : (pawnDiagonalMoves s { side := Side.Black, piece_type := PieceType.Pawn }
            current (current.1 + -1, current.2 + 1)
            (!Board.within_bounds (current.1 + -1 * 2, current.2))).filter
            (fun mv => decide (mv.«to» = (current.1 + -1, current.2 - 1))) = [] := by
          refine filter_to_eq_nil ?_
          intro mv hmv
          rw [pawnDiagonalMoves_to hmv]
          intro hcontra
          have h2 : current.2 + 1 = current.2 - 1 := congrArg Prod.snd hcontra
          omega
        rw [hfwd, hdl, hdr]
        simp
      · have hfwd : (pawnForwardMoves s { side := Side.Black, piece_type := PieceType.Pawn }
            current).filter
            (fun mv => decide (mv.«to» = (current.1 + -1, current.2 + 1))) = [] := by
          refine filter_to_eq_nil ?_
          intro mv hmv
          have hf := pawnForwardMoves_to_file hmv
          intro hcontra
          rw [hcontra] at hf
          have h2 : current.2 + 1 = current.2 := hf
          omega
        have hdl : (pawnDiagonalMoves s { side := Side.Black, piece_type := PieceType.Pawn }
            current (current.1 + -1, current.2 - 1)
            (!Board.within_bounds (current.1 + -1 * 2, current.2))).filter
            (fun mv => decide (mv.«to» = (current.1 + -1, current.2 + 1))) = [] := by
          refine filter_to_eq_nil ?_
          intro mv hmv
          rw [pawnDiagonalMoves_to hmv]
          intro hcontra
          have h2 : current.2 - 1 = current.2 + 1 := congrArg Prod.snd hcontra
          omega
        have hdr : (pawnDiagonalMoves s { side := Side.Black, piece_type := PieceType.Pawn }
            current (current.1 + -1, current.2 + 1)
            (!Board.within_bounds (current.1 + -1 * 2, current.2))).filter
            (fun mv => decide (mv.«to» = (current.1 + -1, current.2 + 1))) =
            [Move.new_with_promo current (current.1 + -1, current.2 + 1) PieceType.Knight,
             Move.new_with_promo current (current.1 + -1, current.2 + 1) PieceType.Bishop,
             Move.new_with_promo current (current.1 + -1, current.2 + 1) PieceType.Rook,
             Move.new_with_promo current (current.1 + -1, current.2 + 1) PieceType.Queen] := by
          unfold pawnDiagonalMoves
          rw [if_pos hwt, hq]
          simp only []
          rw [if_pos hsd, hos, if_pos rfl]
          simp [promoKinds, Move.new_with_promo]
        rw [hfwd, hdl, hdr]
        simp

/-- Every promotion kind emitted anywhere by the generator is one of
the four listed in the source. -/
theorem possible_moves_promo_kinds (s : GameState) (current : Int × Int) :
    ∀ m ∈ s.get_possible_moves_from current, ∀ k, m.promo = some k →
      (k = PieceType.Knight ∨ k = PieceType.Bishop ∨ k = PieceType.Rook ∨
        k = PieceType.Queen) := by
  intro m hm k hk
  unfold GameState.get_possible_moves_from at hm
  simp only [] at hm
  rcases hp : s.board.piece_at current with _ | piece
  · rw [hp] at hm
    simp only [] at hm
    exact absurd hm (List.not_mem_nil m)
  rw [hp] at hm
  simp only [] at hm
  cases hpt : piece.piece_type <;> rw [hpt] at hm <;> simp only [] at hm
  case Pawn =>
    have hfromkinds : m.promo = none ∨ ∃ k2, k2 ∈ promoKinds ∧ m.promo = some k2 := by
      rcases List.mem_append.mp hm with h12 | h3
      · rcases List.mem_append.mp h12 with h1 | h2
        · exact pawnForwardMoves_promo h1
        · exact pawnDiagonalMoves_promo h2
      · exact pawnDiagonalMoves_promo h3
    rcases hfromkinds with hnone | ⟨k2, hk2, hsome⟩
    · rw [hnone] at hk
      exact Option.noConfusion hk
    · rw [hsome] at hk
      obtain rfl := Option.some.inj hk
      simpa [promoKinds] using hk2
  all_goals
    obtain ⟨d, -, hmem⟩ := List.mem_flatMap.mp hm
    rw [get_possible_moves_in_direction_promo hmem] at hk
    exact Option.noConfusion hk

/-- C10: every move produced by `get_possible_moves_from` with
`promo = Some k` has k among Knight, Bishop, Rook, Queen — promotion
to Pawn or King is never generated — and whenever a pawn push or
diagonal capture lands on the farthest rank, the moves generated to
that square are exactly the four promotion moves, one per kind, with
no promotion-less move to that square. -/
theorem promotion_generation_sound (s : GameState) (current : Int × Int) :
    (∀ m ∈ s.get_possible_moves_from current, ∀ k, m.promo = some k →
      (k = PieceType.Knight ∨ k = PieceType.Bishop ∨ k = PieceType.Rook ∨
        k = PieceType.Queen)) ∧
    (∀ (side : Side) (t : Int × Int),
      s.board.piece_at current = some { side := side, piece_type := PieceType.Pawn } →
      Board.within_bounds t = true →
      t.1 = farRank side →
      ((t = (current.1 + pawnDirection side, current.2) ∧ s.board.piece_at t = none) ∨
        ((t = (current.1 + pawnDirection side, current.2 - 1) ∨
          t = (current.1 + pawnDirection side, current.2 + 1)) ∧
         (∃ q, s.board.piece_at t = some q ∧ q.side ≠ side))) →
      (s.get_possible_moves_from current).filter (fun mv => decide (mv.«to» = t)) =
        [Move.new_with_promo current t PieceType.Knight,
         Move.new_with_promo current t PieceType.Bishop,
         Move.new_with_promo current t PieceType.Rook,
         Move.new_with_promo current t PieceType.Queen]) :=
  ⟨possible_moves_promo_kinds s current,
   fun side t hp hwt hfar hc => pawn_promotion_filter s current side t hp hwt hfar hc⟩

/-- C10 (witness): the lone White pawn on a7 promotes on a8 with
exactly the four kinds. -/
theorem promotion_generation_sound_witness :
    (promoState.get_possible_moves_from (6, 0)).filter
        (fun mv => decide (mv.«to» = ((7 : Int), (0 : Int)))) =
      [Move.new_with_promo (6, 0) (7, 0) PieceType.Knight,
       Move.new_with_promo (6, 0) (7, 0) PieceType.Bishop,
       Move.new_with_promo (6, 0) (7, 0) PieceType.Rook,
       Move.new_with_promo (6, 0) (7, 0) PieceType.Queen] ∧
    (PieceType.Knight = PieceType.Knight ∨ PieceType.Knight = PieceType.Bishop ∨
      PieceType.Knight = PieceType.Rook ∨ PieceType.Knight = PieceType.Queen) :=
  ⟨(promotion_generation_sound promoState (6, 0)).2 Side.White (7, 0) (by decide) (by decide)
      (by decide) (Or.inl ⟨by decide, by decide⟩),
   (promotion_generation_sound promoState (6, 0)).1
      (Move.new_with_promo (6, 0) (7, 0) PieceType.Knight) (by decide) PieceType.Knight rfl⟩
